import Mathlib

/-!
Verification of the workload-exporter export pipeline (pkg/export/exporter.go).

The Go source is shallowly embedded: pure helpers become Lean functions,
the stdlib collaborators (time.Date, net/url, encoding/json, filepath.Walk)
are modelled at the granularity the exporter observes, and the stateful
Export pipeline becomes a function from an oracle of query results to a
result plus a trace of executed stages.
-/

set_option maxHeartbeats 1000000

namespace WorkloadExporter

/-! Calendar time.  Go `time.Time` is viewed through its accessors
`Year/Month/Day/Hour/Minute/Second/Nanosecond/Location`, which is all the
exporter uses.  `offset` stands for the location, carried around inertly
(a fixed-offset location in seconds east of UTC). -/

structure GoTime where
  year : Int
  month : Int
  day : Int
  hour : Int
  minute : Int
  sec : Int
  nsec : Int
  offset : Int
  deriving DecidableEq, Repr

/-- Fields of a `GoTime` produced by a real `time.Time`: Go accessors always
report a clock in these ranges. -/
def GoTime.ClockValid (t : GoTime) : Prop :=
  1 ≤ t.month ∧ t.month ≤ 12 ∧ 1 ≤ t.day ∧ t.day ≤ 31 ∧
  0 ≤ t.hour ∧ t.hour ≤ 23 ∧ 0 ≤ t.minute ∧ t.minute ≤ 59 ∧
  0 ≤ t.sec ∧ t.sec ≤ 59 ∧ 0 ≤ t.nsec ∧ t.nsec ≤ 999999999

instance (t : GoTime) : Decidable t.ClockValid := by
  unfold GoTime.ClockValid; infer_instance

/-- Go `time.norm(hi, lo, base)`: carries `lo` into `hi` so that
`0 ≤ lo < base`; this is exactly Euclidean division for positive `base`. -/
def timeNorm (hi lo base : Int) : Int × Int := (hi + lo / base, lo % base)

/-- Model of Go `time.Date` restricted to the clock fields: nanoseconds are
normalised into seconds, seconds into minutes, minutes into hours, hours
into days, and the month into the year, exactly as `time.Date` does.
Go additionally folds an out-of-range day through the calendar; the exporter
only ever passes the day of an existing `time.Time` together with in-range
clock values, so that fold is the identity and is not modelled. -/
def timeDate (year month day hour minute sec nsec off : Int) : GoTime :=
  let p1 := timeNorm sec nsec 1000000000
  let p2 := timeNorm minute p1.1 60
  let p3 := timeNorm hour p2.1 60
  let p4 := timeNorm day p3.1 24
  let p5 := timeNorm year (month - 1) 12
  { year := p5.1, month := p5.2 + 1, day := p4.1, hour := p4.2,
    minute := p3.2, sec := p2.2, nsec := p1.2, offset := off }

/-- Source `startTime` (exporter.go:442-444):
`time.Date(t.Year(), t.Month(), t.Day(), t.Hour(), 0, 0, 0, t.Location())`. -/
def startTime (t : GoTime) : GoTime :=
  timeDate t.year t.month t.day t.hour 0 0 0 t.offset

/-- Source `endTime` (exporter.go:446-448):
`time.Date(t.Year(), t.Month(), t.Day(), t.Hour(), 59, 59, 0, t.Location())`. -/
def endTime (t : GoTime) : GoTime :=
  timeDate t.year t.month t.day t.hour 59 59 0 t.offset

/-- Model of Go `a.Before(b)` for two times in the same (fixed-offset)
location: lexicographic comparison of the calendar fields, which agrees with
Go's instant comparison for clock-valid times sharing a location. -/
def GoTime.before (a b : GoTime) : Bool :=
  if a.year < b.year then true else if b.year < a.year then false
  else if a.month < b.month then true else if b.month < a.month then false
  else if a.day < b.day then true else if b.day < a.day then false
  else if a.hour < b.hour then true else if b.hour < a.hour then false
  else if a.minute < b.minute then true else if b.minute < a.minute then false
  else if a.sec < b.sec then true else if b.sec < a.sec then false
  else if a.nsec < b.nsec then true else false

/-- Model of Go `a.After(b)`. -/
def GoTime.after (a b : GoTime) : Bool := GoTime.before b a

/-! Database enumeration (exporter.go:308-328).  The query result
`SELECT database_name FROM [SHOW DATABASES]` is abstracted as the list of
rows in server order; the loop keeps exactly the rows for which
`slices.Contains(systemDatabases, db)` is false, in scan order. -/

/-- Source `systemDatabases` (exporter.go:21). -/
def systemDatabases : List String := ["system", "crdb_internal", "postgres"]

/-- Source `userDatabases` (exporter.go:308-328), as a function of the rows
returned by the server.  `slices.Contains` compares with `==`
(case-sensitive); rows not contained in `systemDatabases` are appended in
order. -/
def userDatabases (rows : List String) : List String :=
  rows.filter (fun db => !(systemDatabases.contains db))

/-! Table export (exporter.go:330-383): the copy-out query string. -/

/-- Source `Table` (exporter.go:49-53). -/
structure Table where
  Database : String
  Name : String
  TimeColumn : String
  deriving DecidableEq, Repr

/-- Source `exportTables` (exporter.go:55-60). -/
def exportTables : List Table :=
  [ ⟨"crdb_internal", "statement_statistics", "aggregated_ts"⟩,
    ⟨"crdb_internal", "transaction_statistics", "aggregated_ts"⟩,
    ⟨"crdb_internal", "transaction_contention_events", "collection_ts"⟩,
    ⟨"crdb_internal", "gossip_nodes", ""⟩ ]

/-- Source `TimeRange` (exporter.go:35-38). -/
structure TimeRange where
  Start : GoTime
  End : GoTime
  deriving DecidableEq, Repr

/-- Source `Config` (exporter.go:29-33). -/
structure Config where
  ConnectionString : String
  OutputFile : String
  TimeRange : TimeRange
  deriving DecidableEq, Repr

/-- Decimal digits of a natural number, zero-padded on the left to `w`
digits, as Go's `appendInt` pads within `Time.Format`. -/
def padNat (w : Nat) (n : Nat) : String :=
  let s := toString n
  if s.length < w then String.mk (List.replicate (w - s.length) '0') ++ s else s

/-- Go integer formatting with zero padding to width `w` (sign first). -/
def padInt (w : Nat) (n : Int) : String :=
  if n < 0 then "-" ++ padNat w n.natAbs else padNat w n.natAbs

/-- Go `t.Format("2006-01-02 15:04:05")`: four-digit year, two-digit month,
day, hour, minute and second, no timezone suffix. -/
def formatTimestamp (t : GoTime) : String :=
  padInt 4 t.year ++ "-" ++ padInt 2 t.month ++ "-" ++ padInt 2 t.day ++ " " ++
    padInt 2 t.hour ++ ":" ++ padInt 2 t.minute ++ ":" ++ padInt 2 t.sec

/-- The `where` variable built by `exportTable` (exporter.go:367-374): empty
for a table without a time column, otherwise the literal
`WHERE <col> BETWEEN '<floored start>' and '<ceiled end>'`. -/
def whereClause (table : Table) (tr : TimeRange) : String :=
  if table.TimeColumn ≠ "" then
    "WHERE " ++ table.TimeColumn ++ " BETWEEN '" ++
      formatTimestamp (startTime tr.Start) ++ "' and '" ++
      formatTimestamp (endTime tr.End) ++ "'"
  else ""

/-- Source `copyQuery` (exporter.go:375):
`fmt.Sprintf("COPY (SELECT * FROM %s.%s %s) TO STDOUT WITH CSV", ...)`. -/
def copyQuery (table : Table) (tr : TimeRange) : String :=
  "COPY (SELECT * FROM " ++ table.Database ++ "." ++ table.Name ++ " " ++
    whereClause table tr ++ ") TO STDOUT WITH CSV"

/-! Archiving (exporter.go:385-440).  The staging directory is a tree of
named entries; `filepath.Walk` visits entries in lexically sorted name
order, the callback skips directories and adds one zip entry per regular
file, keyed by `filepath.Rel(sourceDir, path)`.  Relative paths are
modelled as their lists of components. -/

/-- A staging-directory tree: a regular file with its content, or a
directory of named children. -/
inductive FsTree where
  | file (content : String)
  | dir (children : List (String × FsTree))
  deriving Repr

/-- Insert a keyed element into a list sorted by key. -/
def insertSorted {α : Type} (p : String × α) : List (String × α) → List (String × α)
  | [] => [p]
  | q :: rest => if q.1 < p.1 then q :: insertSorted p rest else p :: q :: rest

/-- Sort a keyed list by key ascending, as `filepath.Walk` sorts the names
read from each directory (`sort.Strings`). -/
def sortByKey {α : Type} : List (String × α) → List (String × α)
  | [] => []
  | p :: rest => insertSorted p (sortByKey rest)

/-- Source `createZipFile` (exporter.go:385-440), as the list of zip entries
`(relative path components, file content)` produced by walking the staging
directory: directories contribute no entry, every regular file contributes
the entry at its path relative to the staging root, children are visited in
sorted name order. -/
def createZipFile : FsTree → List (List String × String)
  | .file c => [([], c)]
  | .dir cs =>
    (sortByKey (cs.attach.map (fun nc => (nc.1.1, createZipFile nc.1.2)))).flatMap
      (fun p => p.2.map (fun q => (p.1 :: q.1, q.2)))
termination_by t => sizeOf t
decreasing_by
  obtain ⟨⟨a, b⟩, hmem⟩ := nc
  have h1 := List.sizeOf_lt_of_mem hmem
  simp at h1 ⊢
  omega

mutual

/-- Resolve a relative path (list of components) in a tree. -/
def FsTree.lookup : FsTree → List String → Option FsTree
  | t, [] => some t
  | .file _, _ :: _ => none
  | .dir cs, n :: rest => FsTree.lookupChildren cs n rest

/-- Resolve a path against the children of a directory: first child whose
name matches, then the rest of the path inside it. -/
def FsTree.lookupChildren : List (String × FsTree) → String → List String → Option FsTree
  | [], _, _ => none
  | (m, t) :: cstail, n, rest =>
    if m = n then FsTree.lookup t rest else FsTree.lookupChildren cstail n rest

end

/-- No duplicate names in a listing. -/
def nodupKeys : List String → Bool
  | [] => true
  | k :: rest => !(rest.contains k) && nodupKeys rest

mutual

/-- A real filesystem tree: within each directory the entry names are
pairwise distinct. -/
def FsTree.wfb : FsTree → Bool
  | .file _ => true
  | .dir cs => nodupKeys (cs.map Prod.fst) && FsTree.wfbChildren cs

/-- All children well-formed. -/
def FsTree.wfbChildren : List (String × FsTree) → Bool
  | [] => true
  | (_, t) :: rest => FsTree.wfb t && FsTree.wfbChildren rest

end

/-! Metadata manifest (exporter.go:40-47, 112-123, 155-163): the value
written to `metadata.json` by `json.MarshalIndent(metadata, "", "  ")`.
Go's reflection-based encoder is modelled on the JSON shapes this struct
produces: strings, `int64`-backed numbers (`time.Duration` has no custom
JSON marshaller, so it encodes as its nanosecond count), `time.Time`
(custom marshaller: an RFC 3339 string with nanoseconds), and structs
(objects in field order, keys from the `json:` tags, exported field names
when untagged, indented two spaces). -/

/-- Source `Metadata` (exporter.go:40-47).  The two interval fields are
`time.Duration`, an `int64` nanosecond count. -/
structure Metadata where
  Version : String
  Timestamp : GoTime
  ExportConfig : Config
  ClusterVersion : String
  SqlStatsAggregationInterval : Int
  SqlStatsFlushInterval : Int
  deriving DecidableEq, Repr

/-- A JSON value as the encoder for `Metadata` can produce it. -/
inductive Json where
  | str (s : String)
  | num (n : Int)
  | obj (fields : List (String × Json))
  deriving Repr

/-- Go `encoding/json` string escaping (HTML escaping on, as in
`json.Marshal`): quote, backslash, `<`, `>`, `&`, control characters and
U+2028/U+2029 are escaped, everything else is passed through. -/
def jsonEscapeChar (c : Char) : List Char :=
  if c = '"' then ['\\', '"']
  else if c = '\\' then ['\\', '\\']
  else if c = '\n' then ['\\', 'n']
  else if c = '\r' then ['\\', 'r']
  else if c = '\t' then ['\\', 't']
  else if c.toNat < 0x20 then
    ['\\', 'u', '0', '0',
      "0123456789abcdef".toList.getD (c.toNat / 16) '0',
      "0123456789abcdef".toList.getD (c.toNat % 16) '0']
  else if c = '<' then "\\u003c".toList
  else if c = '>' then "\\u003e".toList
  else if c = '&' then "\\u0026".toList
  else if c.toNat = 0x2028 then "\\u2028".toList
  else if c.toNat = 0x2029 then "\\u2029".toList
  else [c]

/-- A JSON string literal for `s`. -/
def jsonQuote (s : String) : String :=
  "\"" ++ String.mk (s.toList.flatMap jsonEscapeChar) ++ "\""

/-- Drop trailing zero characters. -/
def trimTrailingZeros (s : List Char) : List Char :=
  (s.reverse.dropWhile (fun c => c = '0')).reverse

/-- Go `time.Time.MarshalJSON` payload: the RFC 3339 format with
nanoseconds (`"2006-01-02T15:04:05.999999999Z07:00"`): fractional seconds
only when nonzero, with trailing zeros trimmed; `Z` for a zero offset,
otherwise a signed `hh:mm` offset. -/
def rfc3339Nano (t : GoTime) : String :=
  padInt 4 t.year ++ "-" ++ padInt 2 t.month ++ "-" ++ padInt 2 t.day ++ "T" ++
    padInt 2 t.hour ++ ":" ++ padInt 2 t.minute ++ ":" ++ padInt 2 t.sec ++
    (if t.nsec = 0 then ""
     else "." ++ String.mk (trimTrailingZeros (padNat 9 t.nsec.natAbs).toList)) ++
    (if t.offset = 0 then "Z"
     else (if t.offset < 0 then "-" else "+") ++
       padNat 2 (t.offset.natAbs / 3600) ++ ":" ++ padNat 2 (t.offset.natAbs % 3600 / 60))

/-- JSON value of a `Config` (exporter.go:29-33): no `json:` tags, so the
exported Go field names are the keys. -/
def configJson (c : Config) : Json :=
  .obj [("ConnectionString", .str c.ConnectionString),
        ("OutputFile", .str c.OutputFile),
        ("TimeRange", .obj [("Start", .str (rfc3339Nano c.TimeRange.Start)),
                            ("End", .str (rfc3339Nano c.TimeRange.End))])]

/-- JSON value of a `Metadata` (exporter.go:40-47): keys from the `json:`
tags, in struct field order; the two `time.Duration` fields are numbers. -/
def metadataJson (m : Metadata) : Json :=
  .obj [("version", .str m.Version),
        ("timestamp", .str (rfc3339Nano m.Timestamp)),
        ("export_config", configJson m.ExportConfig),
        ("cluster_version", .str m.ClusterVersion),
        ("sql.stats.aggregation.interval", .num m.SqlStatsAggregationInterval),
        ("sql.stats.flush.interval", .num m.SqlStatsFlushInterval)]

/-- Two-space indentation at nesting depth `n`. -/
def indentAt (n : Nat) : String := String.mk (List.replicate (2 * n) ' ')

mutual

/-- Rendering of a JSON value as `json.MarshalIndent(v, "", "  ")` lays it
out: objects open with a brace, each field on its own line at one deeper
indent as `"key": value`, fields separated by commas, closing brace at the
enclosing indent; an empty object renders as the two braces. -/
def renderJson (ind : Nat) : Json → String
  | .str s => jsonQuote s
  | .num n => toString n
  | .obj [] => "\x7b\x7d"
  | .obj (f :: fs) =>
    "\x7b\n" ++ renderFields ind (f :: fs) ++ "\n" ++ indentAt ind ++ "\x7d"

/-- Render the fields of an object at depth `ind + 1`. -/
def renderFields (ind : Nat) : List (String × Json) → String
  | [] => ""
  | [(k, v)] => indentAt (ind + 1) ++ jsonQuote k ++ ": " ++ renderJson (ind + 1) v
  | (k, v) :: f :: fs =>
    indentAt (ind + 1) ++ jsonQuote k ++ ": " ++ renderJson (ind + 1) v ++ ",\n" ++
      renderFields ind (f :: fs)

end

/-- The bytes of `metadata.json` (exporter.go:156):
`json.MarshalIndent(metadata, "", "  ")`. -/
def marshalIndentMetadata (m : Metadata) : String :=
  renderJson 0 (metadataJson m)

/-- Whether `needle` occurs at the start of `hay`. -/
def leadsWith : List Char → List Char → Bool
  | [], _ => true
  | _ :: _, [] => false
  | a :: as, b :: bs => a == b && leadsWith as bs

/-- Whether `needle` occurs contiguously anywhere in `hay`. -/
def occursIn (needle hay : List Char) : Bool :=
  match hay with
  | [] => leadsWith needle []
  | _ :: tl => leadsWith needle hay || occursIn needle tl

/-- Substring test on strings. -/
def strContains (hay needle : String) : Bool := occursIn needle.toList hay.toList

/-! The Export pipeline (exporter.go:78-174).  Each fallible step is
abstracted as an oracle result; `runExport` replays the source's straight
line control flow, recording the stages it starts in order.  Error strings
reproduce the `fmt.Errorf` wrapping of the source (for the two cluster
settings both the getter's wrap, exporter.go:191/203, and the caller's
wrap, exporter.go:104/109, apply; schema-dump failures are returned as-is,
exporter.go:135). -/

/-- One stage of the pipeline, as the claim individuates them. -/
inductive Stage where
  | mkTempDir
  | clusterVersion
  | aggregationInterval
  | flushInterval
  | listDatabases
  | schemaDump (db : String)
  | zoneConfigDump
  | tableExport (db name : String)
  | manifestWrite
  | archive
  deriving DecidableEq, Repr

/-- Results of the environment operations `Export` performs, in the order
it would perform them.  `Except.error` carries the underlying error text
before any wrapping done inside `Export` itself. -/
structure Oracle where
  tempDirR : Except String String
  clusterVersionR : Except String String
  aggR : Except String Int
  flushR : Except String Int
  userDatabasesR : Except String (List String)
  schemaR : String → Except String Unit
  zoneR : Except String Unit
  tableR : Table → Except String Unit
  manifestR : Except String Unit
  zipR : Except String Unit

/-- The `for _, db := range dbs` schema loop (exporter.go:131-137): the
error of `exportCreateStatements` is returned unchanged. -/
def runSchemaLoop (o : Oracle) : List String → List Stage →
    Except String Unit × List Stage
  | [], acc => (.ok (), acc)
  | db :: rest, acc =>
    let acc := acc ++ [Stage.schemaDump db]
    match o.schemaR db with
    | .error e => (.error e, acc)
    | .ok _ => runSchemaLoop o rest acc

/-- The `for _, table := range exportTables` loop (exporter.go:146-152):
errors are wrapped with the table's qualified name. -/
def runTableLoop (o : Oracle) : List Table → List Stage →
    Except String Unit × List Stage
  | [], acc => (.ok (), acc)
  | t :: rest, acc =>
    let acc := acc ++ [Stage.tableExport t.Database t.Name]
    match o.tableR t with
    | .error e =>
      (.error ("failed to export data for table " ++ t.Database ++ "." ++
        t.Name ++ ": " ++ e), acc)
    | .ok _ => runTableLoop o rest acc

/-- Source `Export` (exporter.go:78-174) over an oracle: the straight-line
sequence temp dir, cluster version, the two settings, database listing,
per-database schema dump, zone configurations, per-table export, manifest
write, archive; the first failure returns immediately with the source's
wrapping.  The second component is the trace of stages started. -/
def Export (o : Oracle) : Except String Unit × List Stage :=
  let acc := [Stage.mkTempDir]
  match o.tempDirR with
  | .error e => (.error ("failed to create temp directory: " ++ e), acc)
  | .ok _ =>
  let acc := acc ++ [Stage.clusterVersion]
  match o.clusterVersionR with
  | .error e => (.error ("failed to get cluster version: " ++ e), acc)
  | .ok _ =>
  let acc := acc ++ [Stage.aggregationInterval]
  match o.aggR with
  | .error e =>
    (.error ("failed to get aggregation interval: " ++
      "failed to get sql.stats.aggregation.interval: " ++ e), acc)
  | .ok _ =>
  let acc := acc ++ [Stage.flushInterval]
  match o.flushR with
  | .error e =>
    (.error ("failed to get flush interval: " ++
      "failed to get sql.stats.flush.interval: " ++ e), acc)
  | .ok _ =>
  let acc := acc ++ [Stage.listDatabases]
  match o.userDatabasesR with
  | .error e => (.error ("failed to get user databases: " ++ e), acc)
  | .ok dbs =>
  match runSchemaLoop o dbs acc with
  | (.error e, acc) => (.error e, acc)
  | (.ok _, acc) =>
  let acc := acc ++ [Stage.zoneConfigDump]
  match o.zoneR with
  | .error e => (.error ("failed to export all zone configurations: " ++ e), acc)
  | .ok _ =>
  match runTableLoop o exportTables acc with
  | (.error e, acc) => (.error e, acc)
  | (.ok _, acc) =>
  let acc := acc ++ [Stage.manifestWrite]
  match o.manifestR with
  | .error e => (.error ("failed to write metadata file: " ++ e), acc)
  | .ok _ =>
  let acc := acc ++ [Stage.archive]
  match o.zipR with
  | .error e => (.error ("failed to create zip file: " ++ e), acc)
  | .ok _ => (.ok (), acc)

/-! Connection-string redaction (exporter.go:450-471).  `cleanConnectionString`
is `url.Parse` followed by `u.User = url.User(u.User.Username())` and
`u.String()`, so Go's `net/url` is modelled: parsing into the `URL` record
(scheme, opaque part, userinfo, host, path, query, fragment), the
percent-escaping rules of the userinfo/path/host/fragment components, and
reassembly by `URL.String`.  Strings are handled as lists of characters;
Go works on bytes, and every character a successful parse stores in an
escapable component is a single byte, so the two views agree on parsed
URLs.  The IPv6 zone-identifier special case of `parseHost` (RFC 6874
`%25`) is not modelled. -/

def isAlphaChar (c : Char) : Bool :=
  decide (97 ≤ c.toNat ∧ c.toNat ≤ 122) || decide (65 ≤ c.toNat ∧ c.toNat ≤ 90)

def isDigitChar (c : Char) : Bool := decide (48 ≤ c.toNat ∧ c.toNat ≤ 57)

def isAlphaNum (c : Char) : Bool := isAlphaChar c || isDigitChar c

def isHexChar (c : Char) : Bool :=
  isDigitChar c || decide (97 ≤ c.toNat ∧ c.toNat ≤ 102) ||
    decide (65 ≤ c.toNat ∧ c.toNat ≤ 70)

/-- Go `unhex`. -/
def unhex (c : Char) : Nat :=
  if isDigitChar c then c.toNat - 48
  else if decide (97 ≤ c.toNat ∧ c.toNat ≤ 102) then c.toNat - 87
  else if decide (65 ≤ c.toNat ∧ c.toNat ≤ 70) then c.toNat - 55
  else 0

/-- Digit of Go's `upperhex` table. -/
def upperHexDigit (n : Nat) : Char := "0123456789ABCDEF".toList.getD n '0'

/-- Go `getScheme`: scan for the scheme delimiter colon.  `orig` is the
whole input, returned as the remainder when the head turns out not to be a
scheme. -/
def getSchemeAux (orig acc : List Char) : List Char → Except String (List Char × List Char)
  | [] => .ok ([], orig)
  | c :: rest =>
    if isAlphaChar c then getSchemeAux orig (acc ++ [c]) rest
    else if isDigitChar c || c = '+' || c = '-' || c = '.' then
      if acc.isEmpty then .ok ([], orig) else getSchemeAux orig (acc ++ [c]) rest
    else if c = ':' then
      if acc.isEmpty then .error "missing protocol scheme" else .ok (acc, rest)
    else .ok ([], orig)

/-- Go `getScheme` (net/url). -/
def getScheme (s : List Char) : Except String (List Char × List Char) :=
  getSchemeAux s [] s

/-- Go `strings.Cut` at the first occurrence of `d`: before, after, found. -/
def cutChar (d : Char) : List Char → List Char × List Char × Bool
  | [] => ([], [], false)
  | c :: rest =>
    if c = d then ([], rest, true)
    else
      let r := cutChar d rest
      (c :: r.1, r.2.1, r.2.2)

/-- Split at the last occurrence of `d` (Go `strings.LastIndex`). -/
def splitLast (d : Char) : List Char → Option (List Char × List Char)
  | [] => none
  | c :: rest =>
    match splitLast d rest with
    | some (a, b) => some (c :: a, b)
    | none => if c = d then some ([], rest) else none

/-- The escaping contexts of net/url the exporter can exercise. -/
inductive EncMode where
  | userPassword
  | path
  | host
  | fragmentPart
  deriving DecidableEq, Repr

/-- Go `shouldEscape(c, mode)` for the modelled modes. -/
def shouldEscape (c : Char) (mode : EncMode) : Bool :=
  if isAlphaNum c then false
  else if mode = EncMode.host &&
      ['!', '$', '&', '\'', '(', ')', '*', '+', ',', ';', '=', ':',
        '[', ']', '<', '>', '"'].contains c then false
  else if ['-', '_', '.', '~'].contains c then false
  else if ['$', '&', '+', ',', '/', ':', ';', '=', '?', '@'].contains c then
    match mode with
    | .userPassword => c = '@' || c = '/' || c = '?' || c = ':'
    | .path => c = '?'
    | .fragmentPart => false
    | .host => true
  else if mode = EncMode.fragmentPart && ['!', '(', ')', '*'].contains c then false
  else true

/-- Go `escape(s, mode)`: percent-encode every byte the mode escapes, with
uppercase hex. -/
def escapeMode (mode : EncMode) (s : List Char) : List Char :=
  s.flatMap (fun c =>
    if shouldEscape c mode then
      ['%', upperHexDigit (c.toNat / 16 % 16), upperHexDigit (c.toNat % 16)]
    else [c])

/-- Go `unescape(s, mode)`: decode `%XX` sequences, rejecting malformed
escapes, and in the host rejecting escapes of ASCII bytes other than
`%25`. -/
def unescapeMode (mode : EncMode) : List Char → Except String (List Char)
  | [] => .ok []
  | c :: rest =>
    if c = '%' then
      match rest with
      | a :: b :: rest2 =>
        if isHexChar a && isHexChar b then
          if mode = EncMode.host && unhex a < 8 && !(a = '2' && b = '5') then
            .error "invalid URL escape in host"
          else do
            let tl ← unescapeMode mode rest2
            .ok (Char.ofNat (unhex a * 16 + unhex b) :: tl)
        else .error "invalid URL escape"
      | _ => .error "invalid URL escape"
    else do
      let tl ← unescapeMode mode rest
      .ok (c :: tl)

/-- Go `validUserinfo`. -/
def isValidUserinfoChar (c : Char) : Bool :=
  isAlphaNum c ||
    ['-', '.', '_', ':', '~', '!', '$', '&', '\'', '(', ')', '*', '+', ',',
      ';', '=', '%', '@'].contains c

/-- Go `validEncoded(s, mode)`: may `s` appear verbatim as this component. -/
def validEncoded (mode : EncMode) (s : List Char) : Bool :=
  s.all (fun c =>
    if ['!', '$', '&', '\'', '(', ')', '*', '+', ',', ';', '=', ':', '@'].contains c then true
    else if c = '[' || c = ']' then true
    else if c = '%' then true
    else !shouldEscape c mode)

/-- Go `url.Userinfo`: username and password as stored (decoded), plus
whether a password is present. -/
structure Userinfo where
  username : List Char
  password : List Char
  passwordSet : Bool
  deriving DecidableEq, Repr

/-- Go `url.URL` restricted to the fields the exporter's round trip can
touch.  `host`, `path` and `fragment` are stored decoded, with the raw
forms kept as in Go. -/
structure GoURL where
  scheme : List Char
  opq : List Char
  user : Option Userinfo
  host : List Char
  path : List Char
  rawPath : List Char
  omitHost : Bool
  forceQuery : Bool
  rawQuery : List Char
  fragment : List Char
  rawFragment : List Char
  deriving DecidableEq, Repr

/-- The zero `url.URL`. -/
def emptyURL : GoURL :=
  { scheme := [], opq := [], user := none, host := [], path := [],
    rawPath := [], omitHost := false, forceQuery := false, rawQuery := [],
    fragment := [], rawFragment := [] }

/-- Go `validOptionalPort`. -/
def validOptionalPort (p : List Char) : Bool :=
  match p with
  | [] => true
  | ':' :: digits => digits.all isDigitChar
  | _ => false

/-- Go `parseHost`: bracketed hosts need a closing bracket, the text after
the last `]` (or last `:`) must be a valid optional port, then the host is
unescaped with the host rules. -/
def parseHost (host : List Char) : Except String (List Char) :=
  if leadsWith ['['] host then
    match splitLast ']' host with
    | none => .error "missing ']' in host"
    | some (_, afterBracket) =>
      if !validOptionalPort afterBracket then .error "invalid port after host"
      else unescapeMode EncMode.host host
  else
    match splitLast ':' host with
    | none => unescapeMode EncMode.host host
    | some (_, portDigits) =>
      if !validOptionalPort (':' :: portDigits) then .error "invalid port after host"
      else unescapeMode EncMode.host host

/-- Go `parseAuthority`: split at the last `@`; host to its right, userinfo
(validated, then unescaped; username and password cut at the first `:`)
to its left. -/
def parseAuthority (authority : List Char) : Except String (Option Userinfo × List Char) :=
  match splitLast '@' authority with
  | none => do
    let h ← parseHost authority
    .ok (none, h)
  | some (userinfo, hostRaw) => do
    let h ← parseHost hostRaw
    if !(userinfo.all isValidUserinfoChar) then .error "net/url: invalid userinfo"
    else
      let cut := cutChar ':' userinfo
      if cut.2.2 then do
        let du ← unescapeMode EncMode.userPassword cut.1
        let dp ← unescapeMode EncMode.userPassword cut.2.1
        .ok (some { username := du, password := dp, passwordSet := true }, h)
      else do
        let du ← unescapeMode EncMode.userPassword userinfo
        .ok (some { username := du, password := [], passwordSet := false }, h)

/-- Go `URL.setPath`: store the decoded path, and the raw path when it is
not the canonical encoding. -/
def setPathInto (u : GoURL) (p : List Char) : Except String GoURL := do
  let dp ← unescapeMode EncMode.path p
  let raw := if escapeMode EncMode.path dp == p then [] else p
  .ok { u with path := dp, rawPath := raw }

/-- Go `URL.setFragment`, analogous to `setPath`. -/
def setFragmentInto (u : GoURL) (f : List Char) : Except String GoURL := do
  let df ← unescapeMode EncMode.fragmentPart f
  let raw := if escapeMode EncMode.fragmentPart df == f then [] else f
  .ok { u with fragment := df, rawFragment := raw }

/-- Go `parse(rawURL, false)` (the fragment is already split off): control
characters rejected, `*` special-cased, scheme split and lowercased, the
force-query/raw-query split, then either an opaque remainder, an
authority (`//`) with userinfo and host, or a bare path. -/
def parseMain (rawURL : List Char) : Except String GoURL :=
  if rawURL.any (fun c => c.toNat < 0x20 || c.toNat = 0x7f) then
    .error "net/url: invalid control character in URL"
  else if rawURL = ['*'] then .ok { emptyURL with path := ['*'] }
  else
    match getScheme rawURL with
    | .error e => .error e
    | .ok (schemeRaw, rest0) =>
      let scheme := schemeRaw.map Char.toLower
      let qcut := cutChar '?' rest0
      let (rest, rawQuery, forceQuery) :=
        if rest0.getLast? == some '?' && !(rest0.dropLast.contains '?') then
          (rest0.dropLast, ([] : List Char), true)
        else (qcut.1, qcut.2.1, false)
      if !(leadsWith ['/'] rest) then
        if !scheme.isEmpty then
          .ok { emptyURL with scheme, opq := rest, rawQuery, forceQuery }
        else if ((cutChar '/' rest).1).contains ':' then
          .error "first path segment in URL cannot contain colon"
        else
          setPathInto { emptyURL with rawQuery, forceQuery } rest
      else if (!scheme.isEmpty || !(leadsWith ['/', '/', '/'] rest)) &&
          leadsWith ['/', '/'] rest then
        let after := rest.drop 2
        let acut := cutChar '/' after
        let authority := if acut.2.2 then acut.1 else after
        let rest2 := if acut.2.2 then '/' :: acut.2.1 else []
        match parseAuthority authority with
        | .error e => .error e
        | .ok (usr, h) =>
          setPathInto
            { emptyURL with scheme, user := usr, host := h, rawQuery, forceQuery }
            rest2
      else
        let om := !scheme.isEmpty && leadsWith ['/'] rest
        setPathInto { emptyURL with scheme, omitHost := om, rawQuery, forceQuery } rest

/-- Go `url.Parse`: cut the fragment at the first `#`, parse the rest, then
attach a nonempty fragment. -/
def parseURL (rawURL : List Char) : Except String GoURL :=
  let fcut := cutChar '#' rawURL
  match parseMain fcut.1 with
  | .error e => .error e
  | .ok base =>
    if fcut.2.1.isEmpty then .ok base else setFragmentInto base fcut.2.1

/-- Go `Userinfo.String`: escaped username, and `:` plus escaped password
when one is set. -/
def userinfoString (ui : Userinfo) : List Char :=
  escapeMode EncMode.userPassword ui.username ++
    (if ui.passwordSet then ':' :: escapeMode EncMode.userPassword ui.password else [])

/-- Go `URL.EscapedPath`: the stored raw path when it is a valid encoding
of the decoded path, else the canonical escaping. -/
def escapedPath (u : GoURL) : List Char :=
  if !u.rawPath.isEmpty && validEncoded EncMode.path u.rawPath &&
      (match unescapeMode EncMode.path u.rawPath with
       | .ok p => p == u.path
       | .error _ => false) then
    u.rawPath
  else if u.path == ['*'] then ['*']
  else escapeMode EncMode.path u.path

/-- Go `URL.EscapedFragment`, analogous to `EscapedPath`. -/
def escapedFragment (u : GoURL) : List Char :=
  if !u.rawFragment.isEmpty && validEncoded EncMode.fragmentPart u.rawFragment &&
      (match unescapeMode EncMode.fragmentPart u.rawFragment with
       | .ok f => f == u.fragment
       | .error _ => false) then
    u.rawFragment
  else escapeMode EncMode.fragmentPart u.fragment

/-- Go `URL.String`: scheme and colon; then the opaque part, or the
authority block (`//`, userinfo `@`, escaped host), a separating slash when
a rootless path follows a host, the `./` guard for a leading colon segment,
and the escaped path; then `?` query and `#` fragment. -/
def urlString (u : GoURL) : List Char :=
  let schemePart := if !u.scheme.isEmpty then u.scheme ++ [':'] else []
  let queryPart := if u.forceQuery || !u.rawQuery.isEmpty then '?' :: u.rawQuery else []
  let fragPart := if !u.fragment.isEmpty then '#' :: escapedFragment u else []
  if !u.opq.isEmpty then schemePart ++ u.opq ++ queryPart ++ fragPart
  else
    let hostBlock :=
      if !u.scheme.isEmpty || !u.host.isEmpty || u.user.isSome then
        if u.omitHost && u.host.isEmpty && u.user.isNone then []
        else
          (if !u.host.isEmpty || !u.path.isEmpty || u.user.isSome then ['/', '/'] else []) ++
          (match u.user with
           | some ui => userinfoString ui ++ ['@']
           | none => []) ++
          (if !u.host.isEmpty then escapeMode EncMode.host u.host else [])
      else []
    let p := escapedPath u
    let slashFix := if !p.isEmpty && !(leadsWith ['/'] p) && !u.host.isEmpty then ['/'] else []
    let dotFix :=
      if (schemePart ++ hostBlock ++ slashFix).isEmpty &&
          ((cutChar '/' p).1).contains ':' then
        ['.', '/']
      else []
    schemePart ++ hostBlock ++ slashFix ++ dotFix ++ p ++ queryPart ++ fragPart

/-- The `if u.User != nil` body of `cleanConnectionString`
(exporter.go:465-468): keep the username, drop the password. -/
def stripPassword (u : GoURL) : GoURL :=
  match u.user with
  | none => u
  | some ui => { u with user := some { username := ui.username, password := [], passwordSet := false } }

/-- Source `cleanConnectionString` (exporter.go:450-471), with Go's
`(string, error)` pair of returns: parse, strip the password, reassemble;
on a parse failure return the empty string and the wrapped error. -/
def cleanConnectionString (connStr : String) : String × Option String :=
  match parseURL connStr.toList with
  | .error e => ("", some ("failed to parse connection string: " ++ e))
  | .ok u => (String.mk (urlString (stripPassword u)), none)

/-- The characters Go `getScheme` accepts inside a scheme. -/
def schemeyChar (c : Char) : Bool :=
  isAlphaChar c || isDigitChar c || c = '+' || c = '-' || c = '.'

/-- All characters are single bytes.  The character-list model represents
Go byte strings exactly on such strings (Go's net/url operates on bytes;
a multi-byte rune is several list entries in Go's view but one here). -/
def bytesOK (s : List Char) : Prop := ∀ c ∈ s, c.toNat < 256

/-- The username stored in a URL's userinfo, or `[]` when there is none. -/
def userName (u : GoURL) : List Char :=
  match u.user with
  | none => []
  | some ui => ui.username

/-- The serialized text of `URL.String` that precedes the userinfo block of
an authority-form URL: the scheme with its colon, then `//`. -/
def schemePrefix (u : GoURL) : List Char :=
  (if !u.scheme.isEmpty then u.scheme ++ [':'] else []) ++ ['/', '/']

/-- The serialized text of `URL.String` that follows the userinfo's `@` in
an authority-form URL: the escaped host, the rootless-path separator, the
escaped path, then the query and the fragment. -/
def authTail (u : GoURL) : List Char :=
  (if !u.host.isEmpty then escapeMode EncMode.host u.host else []) ++
  (if !(escapedPath u).isEmpty && !(leadsWith ['/'] (escapedPath u)) &&
      !u.host.isEmpty then ['/'] else []) ++
  escapedPath u ++
  (if u.forceQuery || !u.rawQuery.isEmpty then '?' :: u.rawQuery else []) ++
  (if !u.fragment.isEmpty then '#' :: escapedFragment u else [])

/-- A plain authority-form URL: nonempty lowercase scheme, nonempty host,
no opaque part, every stored component made only of characters its
serialization context leaves verbatim, and empty raw path/fragment
bookkeeping.  On this class `URL.String` is the evident concatenation and
reparsing it recovers the URL exactly. -/
def SimpleURL (u : GoURL) : Prop :=
  u.opq = [] ∧
  u.scheme ≠ [] ∧
  isAlphaChar (u.scheme.headD '0') = true ∧
  (∀ c ∈ u.scheme, schemeyChar c = true) ∧
  (∀ c ∈ u.scheme, c.toLower = c) ∧
  u.host ≠ [] ∧
  (∀ c ∈ u.host, shouldEscape c EncMode.host = false ∧ c ≠ ':' ∧ c ≠ '[' ∧ c ≠ ']') ∧
  (∀ c ∈ userName u, shouldEscape c EncMode.userPassword = false) ∧
  (u.path = [] ∨ leadsWith ['/'] u.path = true) ∧
  (∀ c ∈ u.path, shouldEscape c EncMode.path = false) ∧
  u.rawPath = [] ∧
  '#' ∉ u.rawQuery ∧
  '?' ∉ u.rawQuery ∧
  (∀ c ∈ u.rawQuery, ¬(c.toNat < 0x20 ∨ c.toNat = 0x7f)) ∧
  (u.forceQuery = true → u.rawQuery = []) ∧
  (∀ c ∈ u.fragment, shouldEscape c EncMode.fragmentPart = false) ∧
  u.rawFragment = [] ∧
  u.omitHost = false

/-! Theorems.  Helper lemmas first, then one theorem per claim. -/

theorem char_toNat_ofNat (n : Nat) (h : n < 256) : (Char.ofNat n).toNat = n := by
  have hv : n.isValidChar := Or.inl (by omega)
  rw [Char.ofNat, dif_pos hv]
  rfl

theorem char_toNat_inj (c d : Char) (h : c.toNat = d.toNat) : c = d := by
  rw [← Char.ofNat_toNat c, h, Char.ofNat_toNat]

theorem isHex_upperHexDigit (n : Nat) : isHexChar (upperHexDigit n) = true := by
  rcases Nat.lt_or_ge n 16 with h | h
  · unfold upperHexDigit
    interval_cases n <;> decide
  · unfold upperHexDigit
    rw [List.getD_eq_default]
    · decide
    · simpa using h

theorem unhex_upperHexDigit (n : Nat) (h : n < 16) :
    unhex (upperHexDigit n) = n := by
  unfold upperHexDigit
  interval_cases n <;> decide

theorem cutChar_not_mem (d : Char) (l : List Char) (h : d ∉ l) :
    cutChar d l = (l, [], false) := by
  induction l with
  | nil => rfl
  | cons c tl ih =>
    have hcd : ¬(c = d) := fun he => h (he ▸ List.mem_cons_self c tl)
    simp only [cutChar, if_neg hcd, ih (fun hm => h (List.mem_cons_of_mem c hm))]

theorem cutChar_app (d : Char) (a b : List Char) (h : d ∉ a) :
    cutChar d (a ++ d :: b) = (a, b, true) := by
  induction a with
  | nil => simp [cutChar]
  | cons c tl ih =>
    have hcd : ¬(c = d) := fun he => h (he ▸ List.mem_cons_self c tl)
    simp only [List.cons_append, cutChar, if_neg hcd, List.append_eq,
      ih (fun hm => h (List.mem_cons_of_mem c hm))]

theorem cutChar_spec_true (d : Char) (l : List Char)
    (h : (cutChar d l).2.2 = true) :
    l = (cutChar d l).1 ++ d :: (cutChar d l).2.1 ∧ d ∉ (cutChar d l).1 := by
  induction l with
  | nil => simp [cutChar] at h
  | cons c tl ih =>
    by_cases hcd : c = d
    · subst hcd
      simp [cutChar]
    · simp only [cutChar, if_neg hcd] at h ⊢
      obtain ⟨h1, h2⟩ := ih h
      constructor
      · conv_lhs => rw [h1]
        rw [List.cons_append]
      · intro hm
        rcases List.mem_cons.mp hm with he | hm2
        · exact hcd he.symm
        · exact h2 hm2

theorem cutChar_spec_false (d : Char) (l : List Char)
    (h : (cutChar d l).2.2 = false) :
    (cutChar d l).1 = l ∧ (cutChar d l).2.1 = [] ∧ d ∉ l := by
  induction l with
  | nil => simp [cutChar]
  | cons c tl ih =>
    by_cases hcd : c = d
    · subst hcd
      simp [cutChar] at h
    · simp only [cutChar, if_neg hcd] at h ⊢
      obtain ⟨h1, h2, h3⟩ := ih h
      refine ⟨by rw [h1], h2, ?_⟩
      intro hm
      rcases List.mem_cons.mp hm with he | hm2
      · exact hcd he.symm
      · exact h3 hm2

theorem splitLast_not_mem (d : Char) (l : List Char) (h : d ∉ l) :
    splitLast d l = none := by
  induction l with
  | nil => rfl
  | cons c tl ih =>
    have hcd : ¬(c = d) := fun he => h (he ▸ List.mem_cons_self c tl)
    simp only [splitLast, ih (fun hm => h (List.mem_cons_of_mem c hm)), if_neg hcd]

theorem splitLast_app (d : Char) (a b : List Char) (h : d ∉ b) :
    splitLast d (a ++ d :: b) = some (a, b) := by
  induction a with
  | nil => simp [splitLast, splitLast_not_mem d b h]
  | cons c tl ih => simp only [List.cons_append, splitLast, List.append_eq, ih]

theorem splitLast_none_spec (d : Char) (l : List Char) :
    splitLast d l = none → d ∉ l := by
  induction l with
  | nil => intro _; simp
  | cons c tl ih =>
    intro h
    simp only [splitLast] at h
    cases hs : splitLast d tl with
    | some p =>
      rw [hs] at h
      cases h
    | none =>
      rw [hs] at h
      by_cases hcd : c = d
      · rw [if_pos hcd] at h
        cases h
      · intro hm
        rcases List.mem_cons.mp hm with he | hm2
        · exact hcd he.symm
        · exact ih hs hm2

theorem splitLast_spec_some (d : Char) (l : List Char) :
    ∀ a b, splitLast d l = some (a, b) → l = a ++ d :: b ∧ d ∉ b := by
  induction l with
  | nil => intro a b h; simp [splitLast] at h
  | cons c tl ih =>
    intro a b h
    simp only [splitLast] at h
    cases hs : splitLast d tl with
    | some p =>
      rw [hs] at h
      obtain ⟨a', b'⟩ := p
      simp only [Option.some.injEq, Prod.mk.injEq] at h
      obtain ⟨h1, h2⟩ := h
      obtain ⟨h3, h4⟩ := ih a' b' hs
      subst h1
      subst h2
      exact ⟨by rw [List.cons_append, ← h3], h4⟩
    | none =>
      rw [hs] at h
      by_cases hcd : c = d
      · rw [if_pos hcd] at h
        simp only [Option.some.injEq, Prod.mk.injEq] at h
        obtain ⟨h1, h2⟩ := h
        subst h1
        subst h2
        subst hcd
        exact ⟨rfl, splitLast_none_spec c tl hs⟩
      · rw [if_neg hcd] at h
        cases h

theorem leadsWith_single (d : Char) (l : List Char) :
    leadsWith [d] l = true ↔ ∃ tl, l = d :: tl := by
  cases l with
  | nil => simp [leadsWith]
  | cons c tl =>
    constructor
    · intro h
      simp only [leadsWith] at h
      rw [Bool.and_eq_true, beq_iff_eq] at h
      exact ⟨tl, by rw [h.1]⟩
    · rintro ⟨tl', heq⟩
      injection heq with e1 e2
      subst e1
      subst e2
      simp [leadsWith]

theorem escape_cons_unescaped (m : EncMode) (c : Char) (tl : List Char)
    (h : shouldEscape c m = false) :
    escapeMode m (c :: tl) = c :: escapeMode m tl := by
  simp [escapeMode, h]

theorem escape_cons_escaped (m : EncMode) (c : Char) (tl : List Char)
    (h : shouldEscape c m = true) :
    escapeMode m (c :: tl) =
      '%' :: upperHexDigit (c.toNat / 16 % 16) :: upperHexDigit (c.toNat % 16) ::
        escapeMode m tl := by
  simp [escapeMode, h]

theorem escape_nil_iff (m : EncMode) (l : List Char) :
    escapeMode m l = [] ↔ l = [] := by
  cases l with
  | nil => simp [escapeMode]
  | cons c tl =>
    constructor
    · intro h
      by_cases hse : shouldEscape c m = true
      · rw [escape_cons_escaped m c tl hse] at h
        cases h
      · rw [escape_cons_unescaped m c tl (by simpa using hse)] at h
        cases h
    · intro h
      cases h

theorem unhex_le15 (c : Char) : unhex c ≤ 15 := by
  unfold unhex
  split_ifs with h1 h2 h3
  · simp only [isDigitChar, decide_eq_true_eq] at h1
    omega
  · simp only [decide_eq_true_eq] at h2
    omega
  · simp only [decide_eq_true_eq] at h3
    omega
  · omega

theorem except_bind_ok {α β : Type} (x : Except String α)
    (f : α → Except String β) (b : β) (h : (x >>= f) = .ok b) :
    ∃ a, x = .ok a ∧ f a = .ok b := by
  cases x with
  | error e => simp [Bind.bind, Except.bind] at h
  | ok a => exact ⟨a, rfl, by simpa [Bind.bind, Except.bind] using h⟩

theorem pct_shouldEscape (m : EncMode) : shouldEscape '%' m = true := by
  cases m <;> decide

theorem validUserinfoChar_lt256 (c : Char)
    (h : isValidUserinfoChar c = true) : c.toNat < 256 := by
  unfold isValidUserinfoChar at h
  rw [Bool.or_eq_true] at h
  rcases h with h | h
  · unfold isAlphaNum isAlphaChar isDigitChar at h
    simp only [Bool.or_eq_true, decide_eq_true_eq] at h
    omega
  · have hm := List.elem_iff.mp h
    fin_cases hm <;> decide

theorem unescape_not_pct_eq (m : EncMode) (c : Char) (tl : List Char)
    (hc : ¬(c = '%')) :
    unescapeMode m (c :: tl) =
      (do
        let t ← unescapeMode m tl
        Except.ok (c :: t)) := by
  rcases tl with _ | ⟨x, _ | ⟨y, rest⟩⟩
  · rw [unescapeMode.eq_3 _ _ _ (by intro a b r hh; cases hh), if_neg hc]
  · rw [unescapeMode.eq_3 _ _ _ (by intro a b r hh; simp at hh), if_neg hc]
  · rw [unescapeMode.eq_2, if_neg hc]

theorem unescape_cons_not_pct (m : EncMode) (c : Char) (tl d : List Char)
    (hc : ¬(c = '%')) (h : unescapeMode m (c :: tl) = .ok d) :
    ∃ tl', d = c :: tl' ∧ unescapeMode m tl = .ok tl' := by
  rw [unescape_not_pct_eq m c tl hc] at h
  cases hu : unescapeMode m tl with
  | error e =>
    rw [hu] at h
    simp [Bind.bind, Except.bind] at h
  | ok tl' =>
    rw [hu] at h
    simp only [Bind.bind, Except.bind, Except.ok.injEq] at h
    exact ⟨tl', h.symm, rfl⟩

theorem unescape_pct_ok (m : EncMode) (a b : Char) (rest2 d : List Char)
    (h : unescapeMode m ('%' :: a :: b :: rest2) = .ok d) :
    ∃ tl, unescapeMode m rest2 = .ok tl ∧
      d = Char.ofNat (unhex a * 16 + unhex b) :: tl ∧
      (isHexChar a && isHexChar b) = true := by
  rw [unescapeMode.eq_2, if_pos rfl] at h
  by_cases hhex : (isHexChar a && isHexChar b) = true
  · rw [if_pos hhex] at h
    split at h
    · cases h
    · cases hu : unescapeMode m rest2 with
      | error e =>
        rw [hu] at h
        simp [Bind.bind, Except.bind] at h
      | ok tl =>
        rw [hu] at h
        simp only [Bind.bind, Except.bind, Except.ok.injEq] at h
        exact ⟨tl, rfl, h.symm, hhex⟩
  · rw [if_neg hhex] at h
    cases h

theorem unescape_ok_bytes (m : EncMode) (l : List Char) :
    bytesOK l → ∀ d, unescapeMode m l = .ok d → bytesOK d := by
  induction l using unescapeMode.induct m with
  | case1 =>
    intro _ d h
    rw [unescapeMode.eq_1] at h
    cases h
    intro c hc
    cases hc
  | case2 a b rest2 hhex hhost =>
    intro _ d h
    rw [unescapeMode.eq_2, if_pos rfl, if_pos hhex, if_pos hhost] at h
    cases h
  | case3 a b rest2 hhex hhost ih =>
    intro hb d h
    obtain ⟨tl, htl, rfl, _⟩ := unescape_pct_ok m a b rest2 d h
    have hbytes : bytesOK rest2 := fun c hc =>
      hb c (List.mem_cons_of_mem _ (List.mem_cons_of_mem _ (List.mem_cons_of_mem _ hc)))
    intro c hc
    rcases List.mem_cons.mp hc with rfl | hc2
    · have h16a := unhex_le15 a
      have h16b := unhex_le15 b
      rw [char_toNat_ofNat _ (by omega)]
      omega
    · exact ih hbytes tl htl c hc2
  | case4 a b rest2 hhex =>
    intro _ d h
    rw [unescapeMode.eq_2, if_pos rfl, if_neg hhex] at h
    cases h
  | case5 tl hshape =>
    intro _ d h
    rw [unescapeMode.eq_3 _ _ _ hshape, if_pos rfl] at h
    cases h
  | case6 c tl hpct ih =>
    intro hb d h
    obtain ⟨tl', rfl, htl⟩ := unescape_cons_not_pct m c tl d hpct h
    intro x hx
    rcases List.mem_cons.mp hx with rfl | hx2
    · exact hb x (List.mem_cons_self _ _)
    · exact ih (fun y hy => hb y (List.mem_cons_of_mem _ hy)) tl' htl x hx2

theorem unescape_escape (m : EncMode) (x : List Char) :
    bytesOK x → ∀ y, unescapeMode m (escapeMode m x) = .ok y → y = x := by
  induction x with
  | nil =>
    intro _ y h
    rw [show escapeMode m [] = [] from rfl, unescapeMode.eq_1] at h
    cases h
    rfl
  | cons c xs ih =>
    intro hb y h
    have hbxs : bytesOK xs := fun z hz => hb z (List.mem_cons_of_mem _ hz)
    have hbc : c.toNat < 256 := hb c (List.mem_cons_self _ _)
    by_cases hse : shouldEscape c m = true
    · rw [show escapeMode m (c :: xs) =
          '%' :: upperHexDigit (c.toNat / 16 % 16) :: upperHexDigit (c.toNat % 16) ::
            escapeMode m xs from by
        simp [escapeMode, if_pos hse]] at h
      obtain ⟨tl, htl, rfl, _⟩ := unescape_pct_ok m _ _ _ y h
      have htl' : tl = xs := ih hbxs tl htl
      subst htl'
      have hlo : c.toNat % 16 < 16 := Nat.mod_lt _ (by omega)
      have hhi : c.toNat / 16 % 16 < 16 := Nat.mod_lt _ (by omega)
      rw [unhex_upperHexDigit _ hhi, unhex_upperHexDigit _ hlo]
      have hdiv : c.toNat / 16 % 16 * 16 + c.toNat % 16 = c.toNat := by omega
      rw [hdiv, Char.ofNat_toNat]
    · have hpc : ¬(c = '%') := fun he => hse (he ▸ pct_shouldEscape m)
      rw [show escapeMode m (c :: xs) = c :: escapeMode m xs from by
        simp [escapeMode, if_neg hse]] at h
      obtain ⟨tl, rfl, htl⟩ := unescape_cons_not_pct m c _ y hpc h
      rw [ih hbxs tl htl]

theorem mem_escapeMode (m : EncMode) (l : List Char) (ch : Char)
    (h : ch ∈ escapeMode m l) :
    ch = '%' ∨ isHexChar ch = true ∨ (shouldEscape ch m = false ∧ ch ∈ l) := by
  unfold escapeMode at h
  rw [List.mem_flatMap] at h
  obtain ⟨c, hc, hch⟩ := h
  by_cases hse : shouldEscape c m = true
  · rw [if_pos hse] at hch
    simp only [List.mem_cons, List.not_mem_nil, or_false] at hch
    rcases hch with rfl | rfl | rfl
    · exact Or.inl rfl
    · exact Or.inr (Or.inl (isHex_upperHexDigit _))
    · exact Or.inr (Or.inl (isHex_upperHexDigit _))
  · rw [if_neg hse] at hch
    simp only [List.mem_cons, List.not_mem_nil, or_false] at hch
    subst hch
    exact Or.inr (Or.inr ⟨by rwa [Bool.not_eq_true] at hse, hc⟩)

theorem char_eq_iff_toNat (c d : Char) : c = d ↔ c.toNat = d.toNat :=
  ⟨fun h => h ▸ rfl, char_toNat_inj c d⟩

theorem toLower_toNat (c : Char) :
    (c.toLower).toNat =
      if 65 ≤ c.toNat ∧ c.toNat ≤ 90 then c.toNat + 32 else c.toNat := by
  simp only [Char.toLower]
  split_ifs with h1 <;>
    first
      | exact char_toNat_ofNat _ (by omega)
      | rfl

theorem toLower_idem (c : Char) : c.toLower.toLower = c.toLower := by
  apply char_toNat_inj
  simp only [toLower_toNat]
  split_ifs <;> omega

theorem toLower_mem_map (l : List Char) :
    ∀ c ∈ l.map Char.toLower, c.toLower = c := by
  intro c hc
  rw [List.mem_map] at hc
  obtain ⟨a, _, rfl⟩ := hc
  exact toLower_idem a

theorem map_eq_self_of_fixed (f : Char → Char) (l : List Char)
    (h : ∀ c ∈ l, f c = c) : l.map f = l := by
  induction l with
  | nil => rfl
  | cons c tl ih =>
    simp only [List.map_cons, h c (List.mem_cons_self _ _),
      ih (fun x hx => h x (List.mem_cons_of_mem _ hx))]

theorem isAlpha_toLower (c : Char) (h : isAlphaChar c = true) :
    isAlphaChar c.toLower = true := by
  simp only [isAlphaChar, Bool.or_eq_true, decide_eq_true_eq, toLower_toNat] at h ⊢
  split_ifs <;> omega

theorem schemey_toLower (c : Char) (h : schemeyChar c = true) :
    schemeyChar c.toLower = true := by
  simp only [schemeyChar, isAlphaChar, isDigitChar, Bool.or_eq_true,
    decide_eq_true_eq, char_eq_iff_toNat, toLower_toNat,
    show ('+').toNat = 43 from rfl, show ('-').toNat = 45 from rfl,
    show ('.').toNat = 46 from rfl] at h ⊢
  split_ifs <;> omega

theorem getSchemeAux_app (rest : List Char) (suffix : List Char) :
    ∀ acc orig,
      (∀ c ∈ suffix, schemeyChar c = true) →
      (acc = [] → ∃ d ds, suffix = d :: ds ∧ isAlphaChar d = true) →
      acc ≠ [] ∨ suffix ≠ [] →
      getSchemeAux orig acc (suffix ++ ':' :: rest) = .ok (acc ++ suffix, rest) := by
  induction suffix with
  | nil =>
    intro acc orig _ _ hor
    have hacc : acc ≠ [] := by
      rcases hor with h | h
      · exact h
      · exact absurd rfl h
    simp only [List.nil_append, getSchemeAux]
    rw [if_neg (by decide), if_neg (by decide)]
    simp [List.isEmpty_iff, hacc]
  | cons d ds ih =>
    intro acc orig hchars hne _
    have hd := hchars d (List.mem_cons_self _ _)
    have hds : ∀ c ∈ ds, schemeyChar c = true := fun c hc =>
      hchars c (List.mem_cons_of_mem _ hc)
    simp only [List.cons_append, getSchemeAux, List.append_eq]
    by_cases ha : isAlphaChar d = true
    · rw [if_pos ha]
      have := ih (acc ++ [d]) orig hds
        (fun habs => absurd habs (by simp))
        (Or.inl (by simp))
      rw [this]
      simp
    · have hdig : (isDigitChar d || d = '+' || d = '-' || d = '.') = true := by
        unfold schemeyChar at hd
        simp only [Bool.or_eq_true] at hd ⊢
        tauto
      have hacc : acc ≠ [] := by
        intro he
        obtain ⟨d', ds', heq, halpha⟩ := hne he
        injection heq with e1 _
        exact ha (e1 ▸ halpha)
      rw [if_neg ha, if_pos hdig,
        if_neg (by simpa [List.isEmpty_iff] using hacc)]
      have := ih (acc ++ [d]) orig hds
        (fun habs => absurd habs (by simp))
        (Or.inl (by simp))
      rw [this]
      simp

theorem getScheme_app (sch rest : List Char) (h1 : sch ≠ [])
    (h2 : ∃ d ds, sch = d :: ds ∧ isAlphaChar d = true)
    (h3 : ∀ c ∈ sch, schemeyChar c = true) :
    getScheme (sch ++ ':' :: rest) = .ok (sch, rest) := by
  unfold getScheme
  have := getSchemeAux_app rest sch [] (sch ++ ':' :: rest) h3
    (fun _ => h2) (Or.inr h1)
  simpa using this

theorem getScheme_head_slash (rest : List Char) :
    getScheme ('/' :: rest) = .ok ([], '/' :: rest) := by
  unfold getScheme
  rw [getSchemeAux]
  rw [if_neg (by decide), if_neg (by decide), if_neg (by decide)]

theorem getSchemeAux_spec (rem : List Char) :
    ∀ acc orig sch rest,
      orig = acc ++ rem →
      (∀ c ∈ acc, schemeyChar c = true) →
      (acc ≠ [] → ∃ d ds, acc = d :: ds ∧ isAlphaChar d = true) →
      getSchemeAux orig acc rem = .ok (sch, rest) →
      (sch = [] ∧ rest = orig) ∨
      (orig = sch ++ ':' :: rest ∧
        (∃ d ds, sch = d :: ds ∧ isAlphaChar d = true) ∧
        ∀ c ∈ sch, schemeyChar c = true) := by
  induction rem with
  | nil =>
    intro acc orig sch rest _ _ _ h
    rw [getSchemeAux] at h
    cases h
    exact Or.inl ⟨rfl, rfl⟩
  | cons c cs ih =>
    intro acc orig sch rest horig hchars hhead h
    rw [getSchemeAux] at h
    by_cases ha : isAlphaChar c = true
    · rw [if_pos ha] at h
      apply ih (acc ++ [c]) orig sch rest (by simp [horig])
        (by
          intro x hx
          rcases List.mem_append.mp hx with hx1 | hx2
          · exact hchars x hx1
          · have : x = c := by simpa using hx2
            subst this
            simp [schemeyChar, ha])
        (by
          intro _
          rcases acc with _ | ⟨a0, as⟩
          · exact ⟨c, [], rfl, ha⟩
          · obtain ⟨d, ds, heq, halpha⟩ := hhead (by simp)
            injection heq with e1 _
            exact ⟨a0, as ++ [c], by simp, by rw [e1]; exact halpha⟩)
        h
    · rw [if_neg ha] at h
      by_cases hdig : (isDigitChar c || c = '+' || c = '-' || c = '.') = true
      · rw [if_pos hdig] at h
        by_cases hacc : acc.isEmpty = true
        · rw [if_pos hacc] at h
          cases h
          exact Or.inl ⟨rfl, rfl⟩
        · rw [if_neg hacc] at h
          apply ih (acc ++ [c]) orig sch rest (by simp [horig])
            (by
              intro x hx
              rcases List.mem_append.mp hx with hx1 | hx2
              · exact hchars x hx1
              · have : x = c := by simpa using hx2
                subst this
                unfold schemeyChar
                simp only [Bool.or_eq_true] at hdig ⊢
                tauto)
            (by
              intro _
              have hne : acc ≠ [] := by simpa [List.isEmpty_iff] using hacc
              obtain ⟨d, ds, heq, halpha⟩ := hhead hne
              exact ⟨d, ds ++ [c], by simp [heq], halpha⟩)
            h
      · rw [if_neg hdig] at h
        by_cases hcol : c = ':'
        · rw [if_pos hcol] at h
          by_cases hacc : acc.isEmpty = true
          · rw [if_pos hacc] at h
            cases h
          · rw [if_neg hacc] at h
            cases h
            refine Or.inr ⟨by rw [horig, hcol], ?_, hchars⟩
            have hne : acc ≠ [] := by simpa [List.isEmpty_iff] using hacc
            exact hhead hne
        · rw [if_neg hcol] at h
          cases h
          exact Or.inl ⟨rfl, rfl⟩

theorem getScheme_spec (l sch rest : List Char)
    (h : getScheme l = .ok (sch, rest)) :
    (sch = [] ∧ rest = l) ∨
    (l = sch ++ ':' :: rest ∧
      (∃ d ds, sch = d :: ds ∧ isAlphaChar d = true) ∧
      ∀ c ∈ sch, schemeyChar c = true) := by
  unfold getScheme at h
  have := getSchemeAux_spec l [] l sch rest (by simp) (by simp)
    (fun hne => absurd rfl hne) h
  exact this

theorem isHex_isAlphaNum (c : Char) (h : isHexChar c = true) :
    isAlphaNum c = true := by
  unfold isHexChar isDigitChar at h
  unfold isAlphaNum isAlphaChar isDigitChar
  simp only [Bool.or_eq_true, decide_eq_true_eq] at h ⊢
  omega

theorem isHex_not_ctl (c : Char) (h : isHexChar c = true) :
    ¬(c.toNat < 0x20 ∨ c.toNat = 0x7f) := by
  unfold isHexChar isDigitChar at h
  simp only [Bool.or_eq_true, decide_eq_true_eq] at h
  omega

theorem ctl_not_alphaNum (c : Char) (h : c.toNat < 0x20 ∨ c.toNat = 0x7f) :
    isAlphaNum c = false := by
  rw [Bool.eq_false_iff]
  intro hT
  simp only [isAlphaNum, isAlphaChar, isDigitChar, Bool.or_eq_true,
    decide_eq_true_eq] at hT
  omega

theorem ctl_shouldEscape (m : EncMode) (c : Char)
    (h : c.toNat < 0x20 ∨ c.toNat = 0x7f) : shouldEscape c m = true := by
  have ha := ctl_not_alphaNum c h
  unfold shouldEscape
  split_ifs with g1 g2 g3 g4 g5
  · rw [g1] at ha
    cases ha
  · rw [Bool.and_eq_true] at g2
    have hmem := List.elem_iff.mp g2.2
    fin_cases hmem <;> exact absurd h (by decide)
  · have hmem := List.elem_iff.mp g3
    fin_cases hmem <;> exact absurd h (by decide)
  · have hmem := List.elem_iff.mp g4
    fin_cases hmem <;> exact absurd h (by decide)
  · rw [Bool.and_eq_true] at g5
    have hmem := List.elem_iff.mp g5.2
    fin_cases hmem <;> exact absurd h (by decide)
  · rfl

theorem not_shouldEscapeUP_valid (c : Char)
    (h : shouldEscape c EncMode.userPassword = false) :
    isValidUserinfoChar c = true := by
  unfold shouldEscape at h
  split_ifs at h with g1 g2 g3 g4 g5
  · simp [isValidUserinfoChar, g1]
  · simp at g2
  · have hm := List.elem_iff.mp g3
    fin_cases hm <;> decide
  · simp at h
    have hm := List.elem_iff.mp g4
    fin_cases hm <;> first | decide | (exfalso; simp_all)
  · simp at g5

theorem shouldEscape_not_mem_escape (m : EncMode) (d : Char)
    (hd : shouldEscape d m = true) (hh : isHexChar d = false)
    (hp : ¬(d = '%')) (l : List Char) : d ∉ escapeMode m l := by
  intro hmem
  rcases mem_escapeMode m l d hmem with rfl | h2 | ⟨h3, _⟩
  · exact hp rfl
  · rw [hh] at h2
    cases h2
  · rw [hd] at h3
    cases h3

theorem validUserinfo_escape (l : List Char) :
    ∀ c ∈ escapeMode EncMode.userPassword l, isValidUserinfoChar c = true := by
  intro c hc
  rcases mem_escapeMode _ l c hc with rfl | h2 | ⟨h3, _⟩
  · decide
  · have := isHex_isAlphaNum c h2
    simp [isValidUserinfoChar, this]
  · exact not_shouldEscapeUP_valid c h3

theorem escape_no_ctl (m : EncMode) (l : List Char) :
    ∀ c ∈ escapeMode m l, ¬(c.toNat < 0x20 ∨ c.toNat = 0x7f) := by
  intro c hc hctl
  rcases mem_escapeMode m l c hc with rfl | h2 | ⟨h3, _⟩
  · exact absurd hctl (by decide)
  · exact isHex_not_ctl c h2 hctl
  · rw [ctl_shouldEscape m c hctl] at h3
    cases h3

theorem validEncoded_mem (m : EncMode) (l : List Char)
    (h : validEncoded m l = true) :
    ∀ c ∈ l,
      ['!', '$', '&', '\'', '(', ')', '*', '+', ',', ';', '=', ':', '@'].contains c = true ∨
      c = '[' ∨ c = ']' ∨ c = '%' ∨ shouldEscape c m = false := by
  intro c hc
  unfold validEncoded at h
  rw [List.all_eq_true] at h
  have hch := h c hc
  split_ifs at hch with g1 g2 g3
  · exact Or.inl g1
  · rcases Bool.or_eq_true _ _ ▸ g2 with ha | hb
    · exact Or.inr (Or.inl (by simpa using ha))
    · exact Or.inr (Or.inr (Or.inl (by simpa using hb)))
  · exact Or.inr (Or.inr (Or.inr (Or.inl g3)))
  · exact Or.inr (Or.inr (Or.inr (Or.inr (by simpa using hch))))

theorem escape_validEncoded (m : EncMode) (l : List Char) :
    validEncoded m (escapeMode m l) = true := by
  unfold validEncoded
  rw [List.all_eq_true]
  intro c hc
  rcases mem_escapeMode m l c hc with rfl | h2 | ⟨h3, _⟩
  · split_ifs with a1 a2 a3
    · rfl
    · rfl
    · rfl
    · exact absurd rfl a3
  · have ha := isHex_isAlphaNum c h2
    have hse : shouldEscape c m = false := by
      unfold shouldEscape
      rw [if_pos ha]
    split_ifs <;> simp [hse]
  · split_ifs <;> simp [h3]

theorem timeDate_clockValid (t : GoTime) (h : t.ClockValid) (mi s : Int)
    (hmi : 0 ≤ mi) (hmi2 : mi ≤ 59) (hs : 0 ≤ s) (hs2 : s ≤ 59) :
    timeDate t.year t.month t.day t.hour mi s 0 t.offset =
      { year := t.year, month := t.month, day := t.day, hour := t.hour,
        minute := mi, sec := s, nsec := 0, offset := t.offset } := by
  obtain ⟨h1, h2, h3, h4, h5, h6, h7, h8, h9, h10, h11, h12⟩ := h
  have hd1 : t.hour / 24 = 0 := Int.ediv_eq_zero_of_lt h5 (by omega)
  have hm1 : t.hour % 24 = t.hour := Int.emod_eq_of_lt h5 (by omega)
  have hd2 : (t.month - 1) / 12 = 0 := Int.ediv_eq_zero_of_lt (by omega) (by omega)
  have hm2 : (t.month - 1) % 12 = t.month - 1 := Int.emod_eq_of_lt (by omega) (by omega)
  have hds : s / 60 = 0 := Int.ediv_eq_zero_of_lt hs (by omega)
  have hms : s % 60 = s := Int.emod_eq_of_lt hs (by omega)
  have hdmi : mi / 60 = 0 := Int.ediv_eq_zero_of_lt hmi (by omega)
  have hmmi : mi % 60 = mi := Int.emod_eq_of_lt hmi (by omega)
  simp only [timeDate, timeNorm, Int.zero_ediv, Int.zero_emod, Int.add_zero,
    hd1, hm1, hd2, hm2, hds, hms, hdmi, hmmi, GoTime.mk.injEq, true_and, and_true]
  omega

/-- C5: for every (clock-valid) timestamp `t`, `startTime t` keeps the
year, month, day and hour of `t` and zeroes the minute, second and
nanosecond; `endTime t` keeps the same fields and sets minute 59, second
59, nanosecond 0. -/
theorem c5_startTime_endTime_fields (t : GoTime) (h : t.ClockValid) :
    startTime t =
      { year := t.year, month := t.month, day := t.day, hour := t.hour,
        minute := 0, sec := 0, nsec := 0, offset := t.offset } ∧
    endTime t =
      { year := t.year, month := t.month, day := t.day, hour := t.hour,
        minute := 59, sec := 59, nsec := 0, offset := t.offset } := by
  refine ⟨?_, ?_⟩
  · exact timeDate_clockValid t h 0 0 (by omega) (by omega) (by omega) (by omega)
  · exact timeDate_clockValid t h 59 59 (by omega) (by omega) (by omega) (by omega)

/-- Witness for C5 at the timestamp 2025-04-18 13:45:30 UTC of the
repository's unit tests. -/
theorem c5_witness :
    startTime ⟨2025, 4, 18, 13, 45, 30, 0, 0⟩ = ⟨2025, 4, 18, 13, 0, 0, 0, 0⟩ ∧
    endTime ⟨2025, 4, 18, 13, 45, 30, 0, 0⟩ = ⟨2025, 4, 18, 13, 59, 59, 0, 0⟩ := by
  have h := c5_startTime_endTime_fields ⟨2025, 4, 18, 13, 45, 30, 0, 0⟩ (by decide)
  exact h

/-- C9: `startTime` and `endTime` are idempotent, with no validity
assumption at all: the normalisation `time.Date` performs is stable. -/
theorem c9_rounding_idempotent (t : GoTime) :
    startTime (startTime t) = startTime t ∧ endTime (endTime t) = endTime t := by
  have hmod24 : ∀ a : Int, 0 ≤ a % 24 ∧ a % 24 < 24 := fun a =>
    ⟨Int.emod_nonneg a (by norm_num), Int.emod_lt_of_pos a (by norm_num)⟩
  have hmod12 : ∀ a : Int, 0 ≤ a % 12 ∧ a % 12 < 12 := fun a =>
    ⟨Int.emod_nonneg a (by norm_num), Int.emod_lt_of_pos a (by norm_num)⟩
  constructor <;>
  · simp only [startTime, endTime, timeDate, timeNorm, Int.zero_ediv,
      Int.zero_emod, Int.add_zero, GoTime.mk.injEq]
    have h24 := hmod24 t.hour
    have h12 := hmod12 (t.month - 1)
    have hd1 : t.hour % 24 / 24 = 0 := Int.ediv_eq_zero_of_lt h24.1 h24.2
    have hm1 : t.hour % 24 % 24 = t.hour % 24 := Int.emod_eq_of_lt h24.1 h24.2
    have hd2 : (t.month - 1) % 12 / 12 = 0 := Int.ediv_eq_zero_of_lt h12.1 h12.2
    have hm2 : (t.month - 1) % 12 % 12 = (t.month - 1) % 12 :=
      Int.emod_eq_of_lt h12.1 h12.2
    simp [hd1, hm1, hd2, hm2]

/-- Counterexample to C6 as stated: at 2025-04-18 13:59:59.000000001 UTC
the end rounding truncates the nanosecond, so `endTime t` is before `t`
(the claimed `endTime` ceiling property fails). -/
theorem c6_counterexample :
    GoTime.before (endTime ⟨2025, 4, 18, 13, 59, 59, 1, 0⟩)
      ⟨2025, 4, 18, 13, 59, 59, 1, 0⟩ = true := by decide

/-- C6 amended: for every clock-valid `t`, `startTime t` is never after
`t`; and provided the nanosecond field of `t` is zero, `endTime t` is
never before `t`, so the window `[startTime t, endTime t]` contains every
whole-second timestamp.  (For `t` with a nonzero nanosecond inside the
last second of an hour, `endTime t` precedes `t`, as the counterexample
shows: `endTime` truncates to nanosecond zero.) -/
theorem c6_floor_ceiling_amended (t : GoTime) (h : t.ClockValid) :
    GoTime.after (startTime t) t = false ∧
    (t.nsec = 0 → GoTime.before (endTime t) t = false) := by
  obtain ⟨hst, het⟩ := c5_startTime_endTime_fields t h
  obtain ⟨h1, h2, h3, h4, h5, h6, h7, h8, h9, h10, h11, h12⟩ := h
  constructor
  · rw [hst]
    simp only [GoTime.after, GoTime.before]
    split_ifs <;> first | rfl | omega
  · intro hn
    rw [het]
    simp only [GoTime.before]
    split_ifs <;> first | rfl | omega

/-- C2: `userDatabases` returns exactly the server-reported names outside
the fixed system set: the result is a sublist of the rows (server order
preserved), contains no system name, and keeps every non-system row with
its multiplicity.  Exclusion is by case-sensitive equality, so e.g. a
database named `Postgres` is kept; an empty result is an ordinary value,
not an error. -/
theorem c2_userDatabases (rows : List String) :
    List.Sublist (userDatabases rows) rows ∧
    (∀ x, x ∈ userDatabases rows → x ∉ systemDatabases) ∧
    (∀ x, x ∉ systemDatabases → (userDatabases rows).count x = rows.count x) := by
  refine ⟨List.filter_sublist rows, ?_, ?_⟩
  · intro x hx hmem
    have h := List.of_mem_filter hx
    simp only [Bool.not_eq_true'] at h
    have h2 : systemDatabases.contains x = true := List.elem_iff.mpr hmem
    rw [h2] at h
    simp at h
  · intro x hx
    apply List.count_filter
    cases hcon : systemDatabases.contains x with
    | false => simp [hcon]
    | true => exact absurd (List.elem_iff.mp hcon) hx

/-- Witness for C2: the three system names plus `movr` and `Postgres`. -/
theorem c2_witness :
    List.Sublist (userDatabases ["system", "crdb_internal", "postgres", "movr", "Postgres"])
      ["system", "crdb_internal", "postgres", "movr", "Postgres"] ∧
    "Postgres" ∉ systemDatabases ∧
    (userDatabases ["system", "crdb_internal", "postgres", "movr", "Postgres"]).count "movr" =
      (["system", "crdb_internal", "postgres", "movr", "Postgres"] : List String).count "movr" := by
  have h := c2_userDatabases ["system", "crdb_internal", "postgres", "movr", "Postgres"]
  exact ⟨h.1, h.2.1 "Postgres" (by decide), h.2.2 "movr" (by decide)⟩

theorem insertSorted_perm {α : Type} (p : String × α) (l : List (String × α)) :
    List.Perm (insertSorted p l) (p :: l) := by
  induction l with
  | nil => exact List.Perm.refl _
  | cons q tl ih =>
    simp only [insertSorted]
    split
    · exact (List.Perm.cons q ih).trans (List.Perm.swap p q tl)
    · exact List.Perm.refl _

theorem sortByKey_perm {α : Type} (l : List (String × α)) :
    List.Perm (sortByKey l) l := by
  induction l with
  | nil => exact List.Perm.refl _
  | cons p tl ih =>
    exact (insertSorted_perm p (sortByKey tl)).trans (List.Perm.cons p ih)

/-- Custom induction for the nested tree type: a property closed under
files and under directories of children satisfying it holds everywhere. -/
theorem FsTree.inductionOn (motive : FsTree → Prop)
    (hf : ∀ c, motive (.file c))
    (hd : ∀ cs, (∀ nc ∈ cs, motive nc.2) → motive (.dir cs)) :
    ∀ t, motive t := by
  have H : ∀ n (t : FsTree), sizeOf t = n → motive t := by
    intro n
    induction n using Nat.strong_induction_on with
    | _ n IH =>
      intro t hn
      cases t with
      | file c => exact hf c
      | dir cs =>
        apply hd
        intro nc hmem
        have hlt := List.sizeOf_lt_of_mem hmem
        apply IH (sizeOf nc.2) ?_ nc.2 rfl
        subst hn
        cases nc with
        | mk a b => simp at hlt ⊢; omega
  exact fun t => H (sizeOf t) t rfl

theorem createZipFile_dir_mem (cs : List (String × FsTree)) (p : List String)
    (c : String) :
    ((p, c) ∈ createZipFile (.dir cs)) ↔
      ∃ n t, (n, t) ∈ cs ∧ ∃ tl, p = n :: tl ∧ (tl, c) ∈ createZipFile t := by
  rw [createZipFile]
  constructor
  · intro h
    rw [List.mem_flatMap] at h
    obtain ⟨pr, hpr, hx⟩ := h
    have hpr2 : pr ∈ cs.attach.map (fun nc => (nc.1.1, createZipFile nc.1.2)) :=
      ((sortByKey_perm _).mem_iff).mp hpr
    rw [List.mem_map] at hpr2
    obtain ⟨nc, _, rfl⟩ := hpr2
    rw [List.mem_map] at hx
    obtain ⟨q, hq, hqe⟩ := hx
    injection hqe with h1 h2
    subst h1
    subst h2
    exact ⟨nc.1.1, nc.1.2, nc.2, q.1, rfl, hq⟩
  · intro h
    obtain ⟨n, t, hmem, tl, rfl, hwalk⟩ := h
    rw [List.mem_flatMap]
    refine ⟨(n, createZipFile t), ?_, ?_⟩
    · apply ((sortByKey_perm _).mem_iff).mpr
      rw [List.mem_map]
      exact ⟨⟨(n, t), hmem⟩, List.mem_attach _ _, rfl⟩
    · rw [List.mem_map]
      exact ⟨(tl, c), hwalk, rfl⟩

theorem lookupChildren_iff (cs : List (String × FsTree)) :
    nodupKeys (cs.map Prod.fst) = true →
    (∀ nc ∈ cs, FsTree.wfb nc.2 = true →
      ∀ p c, ((p, c) ∈ createZipFile nc.2 ↔ FsTree.lookup nc.2 p = some (.file c))) →
    FsTree.wfbChildren cs = true →
    ∀ n rest c,
      (∃ t, (n, t) ∈ cs ∧ (rest, c) ∈ createZipFile t) ↔
        FsTree.lookupChildren cs n rest = some (.file c) := by
  induction cs with
  | nil =>
    intro _ _ _ n rest c
    simp [FsTree.lookupChildren]
  | cons hd tl ih =>
    obtain ⟨m, t⟩ := hd
    intro hkeys IH hwfc n rest c
    simp only [List.map_cons, nodupKeys, Bool.and_eq_true, Bool.not_eq_true'] at hkeys
    simp only [FsTree.wfbChildren, Bool.and_eq_true] at hwfc
    simp only [FsTree.lookupChildren]
    by_cases hmn : m = n
    · subst hmn
      simp only [if_pos rfl]
      constructor
      · rintro ⟨t', ht', hw⟩
        rcases List.mem_cons.mp ht' with heq | htl
        · injection heq with _ e2
          subst e2
          exact (IH (m, t') (List.mem_cons_self _ _) hwfc.1 rest c).mp hw
        · exfalso
          have hmem : m ∈ tl.map Prod.fst := List.mem_map_of_mem Prod.fst htl
          have : (tl.map Prod.fst).contains m = true := List.elem_iff.mpr hmem
          rw [hkeys.1] at this
          simp at this
      · intro hl
        have hm := (IH (m, t) (List.mem_cons_self _ _) hwfc.1 rest c).mpr hl
        exact ⟨t, List.mem_cons_self _ _, hm⟩
    · simp only [if_neg hmn]
      rw [← ih hkeys.2 (fun nc hnc => IH nc (List.mem_cons_of_mem _ hnc)) hwfc.2 n rest c]
      constructor
      · rintro ⟨t', ht', hw⟩
        rcases List.mem_cons.mp ht' with heq | htl
        · exfalso
          injection heq with e1 _
          exact hmn e1.symm
        · exact ⟨t', htl, hw⟩
      · rintro ⟨t', ht', hw⟩
        exact ⟨t', List.mem_cons_of_mem _ ht', hw⟩

/-- C3: for every well-formed staging tree (distinct names within each
directory), the zip entry set is exactly the set of regular files under
the root, each keyed by its path relative to the root: `(p, c)` is an
entry of the archive exactly when the lookup of path `p` in the tree is a
regular file with content `c`.  Directories contribute no entries, and no
entry is missing or extra. -/
theorem c3_createZipFile (t : FsTree) :
    t.wfb = true →
    ∀ p c, ((p, c) ∈ createZipFile t ↔ FsTree.lookup t p = some (.file c)) := by
  induction t using FsTree.inductionOn with
  | hf c0 =>
    intro _ p c
    cases p with
    | nil => simp [createZipFile, FsTree.lookup, eq_comm]
    | cons n rest => simp [createZipFile, FsTree.lookup]
  | hd cs IH =>
    intro hwf p c
    rw [FsTree.wfb, Bool.and_eq_true] at hwf
    rw [createZipFile_dir_mem]
    cases p with
    | nil =>
      simp [FsTree.lookup]
    | cons n rest =>
      rw [FsTree.lookup]
      rw [← lookupChildren_iff cs hwf.1 (fun nc hnc => IH nc hnc) hwf.2 n rest c]
      constructor
      · rintro ⟨n', t', hmem, tl, heq, hw⟩
        injection heq with e1 e2
        subst e1
        subst e2
        exact ⟨t', hmem, hw⟩
      · rintro ⟨t', hmem, hw⟩
        exact ⟨n, t', hmem, rest, rfl, hw⟩

/-- Witness for C3: a staging directory with a flat file and a nested one;
the nested file appears in the archive under its relative path. -/
theorem c3_witness :
    (["sub", "b.txt"], "y") ∈
      createZipFile (.dir [("a.csv", .file "x"), ("sub", .dir [("b.txt", .file "y")])]) := by
  apply (c3_createZipFile
    (.dir [("a.csv", .file "x"), ("sub", .dir [("b.txt", .file "y")])])
    (by simp [FsTree.wfb, FsTree.wfbChildren, nodupKeys])
    ["sub", "b.txt"] "y").mpr
  simp [FsTree.lookup, FsTree.lookupChildren]

/-- C4: the copy-out query contains the clause
`WHERE <col> BETWEEN '<start>' and '<end>'` exactly when the table spec
has a nonempty time column, with the start bound the range start floored
to the hour and the end bound the range end rounded to second 59 of its
hour, both in the fixed `2006-01-02 15:04:05` layout with no timezone
suffix; with an empty time column no `WHERE` clause appears at all.  (The
source spells the SQL keyword between the bounds in lowercase, `and`.) -/
theorem c4_copyQuery (table : Table) (tr : TimeRange) :
    (table.TimeColumn ≠ "" →
      copyQuery table tr =
        "COPY (SELECT * FROM " ++ table.Database ++ "." ++ table.Name ++ " " ++
          ("WHERE " ++ table.TimeColumn ++ " BETWEEN '" ++
            formatTimestamp (startTime tr.Start) ++ "' and '" ++
            formatTimestamp (endTime tr.End) ++ "'") ++
          ") TO STDOUT WITH CSV") ∧
    (table.TimeColumn = "" →
      copyQuery table tr =
        "COPY (SELECT * FROM " ++ table.Database ++ "." ++ table.Name ++ " " ++
          "" ++ ") TO STDOUT WITH CSV") := by
  constructor <;> intro h <;> simp [copyQuery, whereClause, h]

/-- Witness for C4: the two kinds of table spec from `exportTables` with
the unit tests' time range 2025-04-18 13:00:00Z to 2025-04-18 13:45:30Z. -/
theorem c4_witness :
    copyQuery ⟨"crdb_internal", "statement_statistics", "aggregated_ts"⟩
        ⟨⟨2025, 4, 18, 13, 0, 0, 0, 0⟩, ⟨2025, 4, 18, 13, 45, 30, 0, 0⟩⟩ =
      "COPY (SELECT * FROM crdb_internal.statement_statistics WHERE aggregated_ts BETWEEN '2025-04-18 13:00:00' and '2025-04-18 13:59:59') TO STDOUT WITH CSV" ∧
    copyQuery ⟨"crdb_internal", "gossip_nodes", ""⟩
        ⟨⟨2025, 4, 18, 13, 0, 0, 0, 0⟩, ⟨2025, 4, 18, 13, 45, 30, 0, 0⟩⟩ =
      "COPY (SELECT * FROM crdb_internal.gossip_nodes ) TO STDOUT WITH CSV" := by
  constructor
  · have h := (c4_copyQuery ⟨"crdb_internal", "statement_statistics", "aggregated_ts"⟩
      ⟨⟨2025, 4, 18, 13, 0, 0, 0, 0⟩, ⟨2025, 4, 18, 13, 45, 30, 0, 0⟩⟩).1 (by decide)
    rw [h]; rfl
  · have h := (c4_copyQuery ⟨"crdb_internal", "gossip_nodes", ""⟩
      ⟨⟨2025, 4, 18, 13, 0, 0, 0, 0⟩, ⟨2025, 4, 18, 13, 45, 30, 0, 0⟩⟩).2 rfl
    rw [h]; rfl

theorem runSchemaLoop_ok (o : Oracle) (dbs : List String)
    (h : ∀ x ∈ dbs, o.schemaR x = .ok ()) (acc : List Stage) :
    runSchemaLoop o dbs acc = (.ok (), acc ++ dbs.map Stage.schemaDump) := by
  induction dbs generalizing acc with
  | nil => simp [runSchemaLoop]
  | cons db rest ih =>
    have hdb := h db (List.mem_cons_self _ _)
    simp only [runSchemaLoop, hdb]
    rw [ih (fun x hx => h x (List.mem_cons_of_mem _ hx))]
    simp

theorem runSchemaLoop_error (o : Oracle) (pre : List String) (db : String)
    (rest : List String) (e : String)
    (hpre : ∀ x ∈ pre, o.schemaR x = .ok ()) (he : o.schemaR db = .error e)
    (acc : List Stage) :
    runSchemaLoop o (pre ++ db :: rest) acc =
      (.error e, acc ++ (pre ++ [db]).map Stage.schemaDump) := by
  induction pre generalizing acc with
  | nil => simp [runSchemaLoop, he]
  | cons p ptl ih =>
    have hp := hpre p (List.mem_cons_self _ _)
    simp only [List.cons_append, runSchemaLoop, hp, List.append_eq]
    rw [ih (fun x hx => hpre x (List.mem_cons_of_mem _ hx))]
    simp

theorem runTableLoop_ok (o : Oracle) (ts : List Table)
    (h : ∀ t ∈ ts, o.tableR t = .ok ()) (acc : List Stage) :
    runTableLoop o ts acc =
      (.ok (), acc ++ ts.map (fun t => Stage.tableExport t.Database t.Name)) := by
  induction ts generalizing acc with
  | nil => simp [runTableLoop]
  | cons t rest ih =>
    have ht := h t (List.mem_cons_self _ _)
    simp only [runTableLoop, ht]
    rw [ih (fun x hx => h x (List.mem_cons_of_mem _ hx))]
    simp

theorem runTableLoop_error (o : Oracle) (pre : List Table) (tbl : Table)
    (rest : List Table) (e : String)
    (hpre : ∀ t ∈ pre, o.tableR t = .ok ()) (he : o.tableR tbl = .error e)
    (acc : List Stage) :
    runTableLoop o (pre ++ tbl :: rest) acc =
      (.error ("failed to export data for table " ++ tbl.Database ++ "." ++
          tbl.Name ++ ": " ++ e),
        acc ++ (pre ++ [tbl]).map (fun t => Stage.tableExport t.Database t.Name)) := by
  induction pre generalizing acc with
  | nil => simp [runTableLoop, he]
  | cons p ptl ih =>
    have hp := hpre p (List.mem_cons_self _ _)
    simp only [List.cons_append, runTableLoop, hp, List.append_eq]
    rw [ih (fun x hx => hpre x (List.mem_cons_of_mem _ hx))]
    simp

set_option maxRecDepth 100000 in
/-- Counterexample to C7 as stated: on a concrete successful export's
metadata the two cluster-setting durations are serialized as bare base-10
integers (their nanosecond counts), not as quoted duration strings: the
rendered manifest contains `"sql.stats.aggregation.interval": 3600000000000`
and the character after each duration key is a digit, never a quote. -/
theorem c7_counterexample :
    strContains
      (marshalIndentMetadata
        { Version := "1.0.0", Timestamp := ⟨2025, 4, 18, 13, 45, 30, 0, 0⟩,
          ExportConfig :=
            { ConnectionString := "postgresql://user@h/db",
              OutputFile := "out.zip",
              TimeRange := ⟨⟨2025, 4, 18, 13, 0, 0, 0, 0⟩,
                ⟨2025, 4, 18, 13, 45, 30, 0, 0⟩⟩ },
          ClusterVersion := "v24.1.0",
          SqlStatsAggregationInterval := 3600000000000,
          SqlStatsFlushInterval := 600000000000 })
      "\"sql.stats.aggregation.interval\": 3600000000000" = true ∧
    strContains
      (marshalIndentMetadata
        { Version := "1.0.0", Timestamp := ⟨2025, 4, 18, 13, 45, 30, 0, 0⟩,
          ExportConfig :=
            { ConnectionString := "postgresql://user@h/db",
              OutputFile := "out.zip",
              TimeRange := ⟨⟨2025, 4, 18, 13, 0, 0, 0, 0⟩,
                ⟨2025, 4, 18, 13, 45, 30, 0, 0⟩⟩ },
          ClusterVersion := "v24.1.0",
          SqlStatsAggregationInterval := 3600000000000,
          SqlStatsFlushInterval := 600000000000 })
      "\"sql.stats.aggregation.interval\": \"" = false ∧
    strContains
      (marshalIndentMetadata
        { Version := "1.0.0", Timestamp := ⟨2025, 4, 18, 13, 45, 30, 0, 0⟩,
          ExportConfig :=
            { ConnectionString := "postgresql://user@h/db",
              OutputFile := "out.zip",
              TimeRange := ⟨⟨2025, 4, 18, 13, 0, 0, 0, 0⟩,
                ⟨2025, 4, 18, 13, 45, 30, 0, 0⟩⟩ },
          ClusterVersion := "v24.1.0",
          SqlStatsAggregationInterval := 3600000000000,
          SqlStatsFlushInterval := 600000000000 })
      "\"sql.stats.flush.interval\": \"" = false := by
  refine ⟨by decide, by decide, by decide⟩

/-- C7 amended: for every metadata value, the written `metadata.json` is
the pretty-printed JSON object with the version, the RFC 3339 timestamp,
the redacted export config (connection string, output file, time range),
the cluster version string, and the two cluster-setting durations each
serialized as a bare base-10 integer nanosecond count (Go `time.Duration`
has no JSON marshaller of its own), not as a duration string. -/
theorem c7_amended (m : Metadata) :
    marshalIndentMetadata m =
      "\x7b\n" ++
        ("  " ++ "\"version\"" ++ ": " ++ jsonQuote m.Version ++ ",\n" ++
          ("  " ++ "\"timestamp\"" ++ ": " ++ jsonQuote (rfc3339Nano m.Timestamp) ++ ",\n" ++
            ("  " ++ "\"export_config\"" ++ ": " ++
                ("\x7b\n" ++
                  ("    " ++ "\"ConnectionString\"" ++ ": " ++
                      jsonQuote m.ExportConfig.ConnectionString ++ ",\n" ++
                    ("    " ++ "\"OutputFile\"" ++ ": " ++
                        jsonQuote m.ExportConfig.OutputFile ++ ",\n" ++
                      ("    " ++ "\"TimeRange\"" ++ ": " ++
                          ("\x7b\n" ++
                            ("      " ++ "\"Start\"" ++ ": " ++
                                jsonQuote (rfc3339Nano m.ExportConfig.TimeRange.Start) ++ ",\n" ++
                              ("      " ++ "\"End\"" ++ ": " ++
                                  jsonQuote (rfc3339Nano m.ExportConfig.TimeRange.End))) ++
                            "\n" ++ "    " ++ "\x7d")))) ++
                  "\n" ++ "  " ++ "\x7d") ++ ",\n" ++
              ("  " ++ "\"cluster_version\"" ++ ": " ++ jsonQuote m.ClusterVersion ++ ",\n" ++
                ("  " ++ "\"sql.stats.aggregation.interval\"" ++ ": " ++
                    toString m.SqlStatsAggregationInterval ++ ",\n" ++
                  ("  " ++ "\"sql.stats.flush.interval\"" ++ ": " ++
                      toString m.SqlStatsFlushInterval)))))) ++
        "\n" ++ "" ++ "\x7d" := by
  rfl

/-- Counterexample to C8 as stated: when the schema dump of a database
fails, `Export` returns the underlying error unchanged (exporter.go:135)
with no wrapping that identifies the failing database, so the returned
error for database `mydb` need not mention `mydb` at all.  (The
immediate-abort part of the claim does hold: the trace stops at the
failing stage.) -/
theorem c8_counterexample :
    Export
      { tempDirR := .ok "/tmp/x", clusterVersionR := .ok "v1",
        aggR := .ok 3600000000000, flushR := .ok 600000000000,
        userDatabasesR := .ok ["mydb"],
        schemaR := fun _ => .error "connection refused",
        zoneR := .ok (), tableR := fun _ => .ok (),
        manifestR := .ok (), zipR := .ok () } =
      (.error "connection refused",
        [Stage.mkTempDir, Stage.clusterVersion, Stage.aggregationInterval,
          Stage.flushInterval, Stage.listDatabases, Stage.schemaDump "mydb"]) ∧
    strContains "connection refused" "mydb" = false := by
  exact ⟨rfl, by decide⟩

/-- C8 amended: whichever stage of `Export` fails first, `Export` returns
immediately with that stage's error, no later stage is started, and no
stage is retried (the trace is exactly the prefix of the pipeline up to
and including the failing stage).  Errors of the temp-dir, metadata-query,
database-listing, zone-config, table-export, manifest-write and archive
stages are wrapped with context identifying the stage (setting name or
qualified table name); schema-dump errors alone are returned unchanged,
with no database name attached.  When every stage succeeds the full
pipeline runs, in order, exactly once. -/
theorem c8_pipeline_amended (o : Oracle) :
    (∀ e, o.tempDirR = .error e →
      Export o = (.error ("failed to create temp directory: " ++ e),
        [Stage.mkTempDir])) ∧
    (∀ d e, o.tempDirR = .ok d → o.clusterVersionR = .error e →
      Export o = (.error ("failed to get cluster version: " ++ e),
        [Stage.mkTempDir, Stage.clusterVersion])) ∧
    (∀ d v e, o.tempDirR = .ok d → o.clusterVersionR = .ok v →
      o.aggR = .error e →
      Export o = (.error ("failed to get aggregation interval: " ++
          "failed to get sql.stats.aggregation.interval: " ++ e),
        [Stage.mkTempDir, Stage.clusterVersion, Stage.aggregationInterval])) ∧
    (∀ d v a e, o.tempDirR = .ok d → o.clusterVersionR = .ok v →
      o.aggR = .ok a → o.flushR = .error e →
      Export o = (.error ("failed to get flush interval: " ++
          "failed to get sql.stats.flush.interval: " ++ e),
        [Stage.mkTempDir, Stage.clusterVersion, Stage.aggregationInterval,
          Stage.flushInterval])) ∧
    (∀ d v a f e, o.tempDirR = .ok d → o.clusterVersionR = .ok v →
      o.aggR = .ok a → o.flushR = .ok f → o.userDatabasesR = .error e →
      Export o = (.error ("failed to get user databases: " ++ e),
        [Stage.mkTempDir, Stage.clusterVersion, Stage.aggregationInterval,
          Stage.flushInterval, Stage.listDatabases])) ∧
    (∀ d v a f pre db rest e, o.tempDirR = .ok d → o.clusterVersionR = .ok v →
      o.aggR = .ok a → o.flushR = .ok f →
      o.userDatabasesR = .ok (pre ++ db :: rest) →
      (∀ x ∈ pre, o.schemaR x = .ok ()) → o.schemaR db = .error e →
      Export o = (.error e,
        [Stage.mkTempDir, Stage.clusterVersion, Stage.aggregationInterval,
          Stage.flushInterval, Stage.listDatabases] ++
          (pre ++ [db]).map Stage.schemaDump)) ∧
    (∀ d v a f dbs e, o.tempDirR = .ok d → o.clusterVersionR = .ok v →
      o.aggR = .ok a → o.flushR = .ok f → o.userDatabasesR = .ok dbs →
      (∀ x ∈ dbs, o.schemaR x = .ok ()) → o.zoneR = .error e →
      Export o = (.error ("failed to export all zone configurations: " ++ e),
        [Stage.mkTempDir, Stage.clusterVersion, Stage.aggregationInterval,
          Stage.flushInterval, Stage.listDatabases] ++
          dbs.map Stage.schemaDump ++ [Stage.zoneConfigDump])) ∧
    (∀ d v a f dbs pre tbl rest e, o.tempDirR = .ok d →
      o.clusterVersionR = .ok v → o.aggR = .ok a → o.flushR = .ok f →
      o.userDatabasesR = .ok dbs → (∀ x ∈ dbs, o.schemaR x = .ok ()) →
      o.zoneR = .ok () → exportTables = pre ++ tbl :: rest →
      (∀ t ∈ pre, o.tableR t = .ok ()) → o.tableR tbl = .error e →
      Export o = (.error ("failed to export data for table " ++
          tbl.Database ++ "." ++ tbl.Name ++ ": " ++ e),
        [Stage.mkTempDir, Stage.clusterVersion, Stage.aggregationInterval,
          Stage.flushInterval, Stage.listDatabases] ++
          dbs.map Stage.schemaDump ++ [Stage.zoneConfigDump] ++
          (pre ++ [tbl]).map (fun t => Stage.tableExport t.Database t.Name))) ∧
    (∀ d v a f dbs e, o.tempDirR = .ok d → o.clusterVersionR = .ok v →
      o.aggR = .ok a → o.flushR = .ok f → o.userDatabasesR = .ok dbs →
      (∀ x ∈ dbs, o.schemaR x = .ok ()) → o.zoneR = .ok () →
      (∀ t ∈ exportTables, o.tableR t = .ok ()) → o.manifestR = .error e →
      Export o = (.error ("failed to write metadata file: " ++ e),
        [Stage.mkTempDir, Stage.clusterVersion, Stage.aggregationInterval,
          Stage.flushInterval, Stage.listDatabases] ++
          dbs.map Stage.schemaDump ++ [Stage.zoneConfigDump] ++
          exportTables.map (fun t => Stage.tableExport t.Database t.Name) ++
          [Stage.manifestWrite])) ∧
    (∀ d v a f dbs e, o.tempDirR = .ok d → o.clusterVersionR = .ok v →
      o.aggR = .ok a → o.flushR = .ok f → o.userDatabasesR = .ok dbs →
      (∀ x ∈ dbs, o.schemaR x = .ok ()) → o.zoneR = .ok () →
      (∀ t ∈ exportTables, o.tableR t = .ok ()) → o.manifestR = .ok () →
      o.zipR = .error e →
      Export o = (.error ("failed to create zip file: " ++ e),
        [Stage.mkTempDir, Stage.clusterVersion, Stage.aggregationInterval,
          Stage.flushInterval, Stage.listDatabases] ++
          dbs.map Stage.schemaDump ++ [Stage.zoneConfigDump] ++
          exportTables.map (fun t => Stage.tableExport t.Database t.Name) ++
          [Stage.manifestWrite, Stage.archive])) ∧
    (∀ d v a f dbs, o.tempDirR = .ok d → o.clusterVersionR = .ok v →
      o.aggR = .ok a → o.flushR = .ok f → o.userDatabasesR = .ok dbs →
      (∀ x ∈ dbs, o.schemaR x = .ok ()) → o.zoneR = .ok () →
      (∀ t ∈ exportTables, o.tableR t = .ok ()) → o.manifestR = .ok () →
      o.zipR = .ok () →
      Export o = (.ok (),
        [Stage.mkTempDir, Stage.clusterVersion, Stage.aggregationInterval,
          Stage.flushInterval, Stage.listDatabases] ++
          dbs.map Stage.schemaDump ++ [Stage.zoneConfigDump] ++
          exportTables.map (fun t => Stage.tableExport t.Database t.Name) ++
          [Stage.manifestWrite, Stage.archive])) := by
  refine ⟨?_, ?_, ?_, ?_, ?_, ?_, ?_, ?_, ?_, ?_, ?_⟩
  · intro e h1
    simp [Export, h1]
  · intro d e h1 h2
    simp [Export, h1, h2]
  · intro d v e h1 h2 h3
    simp [Export, h1, h2, h3]
  · intro d v a e h1 h2 h3 h4
    simp [Export, h1, h2, h3, h4]
  · intro d v a f e h1 h2 h3 h4 h5
    simp [Export, h1, h2, h3, h4, h5]
  · intro d v a f pre db rest e h1 h2 h3 h4 h5 hpre he
    simp only [Export, h1, h2, h3, h4, h5]
    rw [runSchemaLoop_error o pre db rest e hpre he]
    simp
  · intro d v a f dbs e h1 h2 h3 h4 h5 hs h6
    simp only [Export, h1, h2, h3, h4, h5]
    rw [runSchemaLoop_ok o dbs hs]
    simp [h6]
  · intro d v a f dbs pre tbl rest e h1 h2 h3 h4 h5 hs h6 hsplit hpre he
    simp only [Export, h1, h2, h3, h4, h5]
    rw [runSchemaLoop_ok o dbs hs]
    simp only [h6, hsplit]
    rw [runTableLoop_error o pre tbl rest e hpre he]
    simp
  · intro d v a f dbs e h1 h2 h3 h4 h5 hs h6 ht h7
    simp only [Export, h1, h2, h3, h4, h5]
    rw [runSchemaLoop_ok o dbs hs]
    simp only [h6]
    rw [runTableLoop_ok o exportTables ht]
    simp [h7]
  · intro d v a f dbs e h1 h2 h3 h4 h5 hs h6 ht h7 h8
    simp only [Export, h1, h2, h3, h4, h5]
    rw [runSchemaLoop_ok o dbs hs]
    simp only [h6]
    rw [runTableLoop_ok o exportTables ht]
    simp [h7, h8]
  · intro d v a f dbs h1 h2 h3 h4 h5 hs h6 ht h7 h8
    simp only [Export, h1, h2, h3, h4, h5]
    rw [runSchemaLoop_ok o dbs hs]
    simp only [h6]
    rw [runTableLoop_ok o exportTables ht]
    simp [h7, h8]

/-- Witness for C8 (amended): a concrete oracle whose zone-configuration
dump fails; the export aborts right after that stage with the wrapped
error. -/
theorem c8_witness :
    Export
      { tempDirR := .ok "/tmp/x", clusterVersionR := .ok "v1",
        aggR := .ok 3600000000000, flushR := .ok 600000000000,
        userDatabasesR := .ok ["movr"], schemaR := fun _ => .ok (),
        zoneR := .error "boom", tableR := fun _ => .ok (),
        manifestR := .ok (), zipR := .ok () } =
      (.error ("failed to export all zone configurations: " ++ "boom"),
        [Stage.mkTempDir, Stage.clusterVersion, Stage.aggregationInterval,
          Stage.flushInterval, Stage.listDatabases] ++
          ["movr"].map Stage.schemaDump ++ [Stage.zoneConfigDump]) := by
  exact (c8_pipeline_amended _).2.2.2.2.2.2.1 "/tmp/x" "v1" 3600000000000
    600000000000 ["movr"] "boom" rfl rfl rfl rfl rfl
    (fun x _ => rfl) rfl

/-- Witness for C6 (amended) at 2025-04-18 13:45:30.0 UTC. -/
theorem c6_witness :
    GoTime.after (startTime ⟨2025, 4, 18, 13, 45, 30, 0, 0⟩)
      ⟨2025, 4, 18, 13, 45, 30, 0, 0⟩ = false ∧
    GoTime.before (endTime ⟨2025, 4, 18, 13, 45, 30, 0, 0⟩)
      ⟨2025, 4, 18, 13, 45, 30, 0, 0⟩ = false := by
  have h := c6_floor_ceiling_amended ⟨2025, 4, 18, 13, 45, 30, 0, 0⟩ (by decide)
  exact ⟨h.1, h.2 rfl⟩

theorem escape_id (m : EncMode) (l : List Char)
    (h : ∀ c ∈ l, shouldEscape c m = false) : escapeMode m l = l := by
  induction l with
  | nil => rfl
  | cons c tl ih =>
    rw [escape_cons_unescaped m c tl (h c (List.mem_cons_self _ _)),
      ih (fun x hx => h x (List.mem_cons_of_mem _ hx))]

theorem unescape_no_pct (m : EncMode) (l : List Char)
    (h : ∀ c ∈ l, ¬(c = '%')) : unescapeMode m l = .ok l := by
  induction l with
  | nil => rw [unescapeMode.eq_1]
  | cons c tl ih =>
    rw [unescape_not_pct_eq m c tl (h c (List.mem_cons_self _ _)),
      ih (fun x hx => h x (List.mem_cons_of_mem _ hx))]
    rfl

theorem safe_not_mem (m : EncMode) (d : Char) (l : List Char)
    (hall : ∀ c ∈ l, shouldEscape c m = false) (hd : shouldEscape d m = true) :
    d ∉ l := by
  intro hm
  have h := hall d hm
  rw [hd] at h
  cases h

theorem contains_false_of_not_mem (l : List Char) (d : Char) (h : d ∉ l) :
    l.contains d = false := by
  rw [Bool.eq_false_iff]
  intro hc
  exact h (List.elem_iff.mp hc)

theorem getLastBeq_false (l : List Char) (d : Char) (h : d ∉ l) :
    (l.getLast? == some d) = false := by
  rcases hl : l.getLast? with _ | a
  · rfl
  · have hmem : a ∈ l := by
      rcases l with _ | ⟨x, xs⟩
      · cases hl
      · have hne : (x :: xs : List Char) ≠ [] := List.cons_ne_nil x xs
        rw [List.getLast?_eq_getLast _ hne] at hl
        injection hl with e
        rw [← e]
        exact List.getLast_mem hne
    rw [Bool.eq_false_iff]
    intro hb
    have he : a = d := by simpa using hb
    exact h (he ▸ hmem)

theorem setPathInto_ok_fields (u v : GoURL) (p : List Char)
    (h : setPathInto u p = .ok v) :
    v.scheme = u.scheme ∧ v.opq = u.opq ∧ v.user = u.user ∧ v.host = u.host ∧
      v.omitHost = u.omitHost ∧ v.forceQuery = u.forceQuery ∧
      v.rawQuery = u.rawQuery ∧ v.fragment = u.fragment ∧
      v.rawFragment = u.rawFragment := by
  unfold setPathInto at h
  cases hu : unescapeMode EncMode.path p with
  | error e =>
    rw [hu] at h
    simp [Bind.bind, Except.bind] at h
  | ok dp =>
    rw [hu] at h
    simp only [Bind.bind, Except.bind, Except.ok.injEq] at h
    subst h
    exact ⟨rfl, rfl, rfl, rfl, rfl, rfl, rfl, rfl, rfl⟩

theorem setFragmentInto_ok_fields (u v : GoURL) (f : List Char)
    (h : setFragmentInto u f = .ok v) :
    v.scheme = u.scheme ∧ v.opq = u.opq ∧ v.user = u.user ∧ v.host = u.host ∧
      v.path = u.path ∧ v.rawPath = u.rawPath ∧ v.omitHost = u.omitHost ∧
      v.forceQuery = u.forceQuery ∧ v.rawQuery = u.rawQuery := by
  unfold setFragmentInto at h
  cases hu : unescapeMode EncMode.fragmentPart f with
  | error e =>
    rw [hu] at h
    simp [Bind.bind, Except.bind] at h
  | ok df =>
    rw [hu] at h
    simp only [Bind.bind, Except.bind, Except.ok.injEq] at h
    subst h
    exact ⟨rfl, rfl, rfl, rfl, rfl, rfl, rfl, rfl, rfl⟩

theorem parseMain_user_opq (m : List Char) (u : GoURL)
    (hp : parseMain m = .ok u) (hu : u.user.isSome = true) : u.opq = [] := by
  unfold parseMain at hp
  split at hp
  · cases hp
  · split at hp
    · simp only [Except.ok.injEq] at hp
      subst hp
      simp [emptyURL] at hu
    · split at hp
      · cases hp
      · split at hp
        · dsimp only at hp
          split at hp
          · split at hp
            · simp only [Except.ok.injEq] at hp
              subst hp
              simp [emptyURL] at hu
            · split at hp
              · cases hp
              · have hf := setPathInto_ok_fields _ u _ hp
                rw [hf.2.2.1] at hu
                simp [emptyURL] at hu
          · split at hp
            · split at hp
              · cases hp
              · have hf := setPathInto_ok_fields _ u _ hp
                rw [hf.2.1]
                simp [emptyURL]
            · have hf := setPathInto_ok_fields _ u _ hp
              rw [hf.2.2.1] at hu
              simp [emptyURL] at hu
        · dsimp only at hp
          split at hp
          · split at hp
            · simp only [Except.ok.injEq] at hp
              subst hp
              simp [emptyURL] at hu
            · split at hp
              · cases hp
              · have hf := setPathInto_ok_fields _ u _ hp
                rw [hf.2.2.1] at hu
                simp [emptyURL] at hu
          · split at hp
            · split at hp
              · cases hp
              · have hf := setPathInto_ok_fields _ u _ hp
                rw [hf.2.1]
                simp [emptyURL]
            · have hf := setPathInto_ok_fields _ u _ hp
              rw [hf.2.2.1] at hu
              simp [emptyURL] at hu

theorem parseURL_user_opq (l : List Char) (u : GoURL)
    (hp : parseURL l = .ok u) (hu : u.user.isSome = true) : u.opq = [] := by
  unfold parseURL at hp
  dsimp only at hp
  split at hp
  · cases hp
  · rename_i base hbase
    split at hp
    · simp only [Except.ok.injEq] at hp
      subst hp
      exact parseMain_user_opq _ _ hbase hu
    · have hf := setFragmentInto_ok_fields base u _ hp
      rw [hf.2.1]
      refine parseMain_user_opq _ base hbase ?_
      rw [← hf.2.2.1]
      exact hu

theorem urlString_user_expand (u : GoURL) (ui : Userinfo)
    (hopq : u.opq = []) (hu : u.user = some ui) :
    urlString u = schemePrefix u ++ userinfoString ui ++ '@' :: authTail u := by
  unfold urlString schemePrefix authTail
  rw [hopq, hu]
  simp [List.append_assoc]

/-- C1: for every connection string that parses as a URL and carries a
password, `cleanConnectionString` succeeds and returns the parsed URL's
serialization with only the user component changed — the password is
dropped while the username, host, path, query and fragment fields are
untouched — so the output string is exactly the input URL's serialization
with the `:password` segment deleted; for every input that fails URL
parsing it returns the empty string together with the wrapped parse
error. -/
theorem c1_cleanConnectionString (l : String) :
    (∀ u ui, parseURL l.toList = .ok u → u.user = some ui → ui.passwordSet = true →
      stripPassword u =
        { u with user := some { username := ui.username, password := [],
                                passwordSet := false } } ∧
      cleanConnectionString l =
        (String.mk (schemePrefix u ++ escapeMode EncMode.userPassword ui.username ++
          '@' :: authTail u), none) ∧
      urlString u =
        schemePrefix u ++ escapeMode EncMode.userPassword ui.username ++
          ':' :: (escapeMode EncMode.userPassword ui.password ++ '@' :: authTail u)) ∧
    (∀ e, parseURL l.toList = .error e →
      cleanConnectionString l = ("", some ("failed to parse connection string: " ++ e))) := by
  constructor
  · intro u ui hp hu hpw
    have hopq : u.opq = [] := parseURL_user_opq l.toList u hp (by rw [hu]; rfl)
    have hstr : stripPassword u =
        { u with user := some { username := ui.username, password := [],
                                passwordSet := false } } := by
      unfold stripPassword
      rw [hu]
    refine ⟨hstr, ?_, ?_⟩
    · unfold cleanConnectionString
      rw [hp]
      dsimp only
      rw [hstr]
      have hexp := urlString_user_expand
        { u with user := some { username := ui.username, password := [],
                                passwordSet := false } }
        { username := ui.username, password := [], passwordSet := false }
        hopq rfl
      rw [hexp]
      unfold userinfoString
      simp [schemePrefix, authTail, escapedPath, escapedFragment]
    · have hexp := urlString_user_expand u ui hopq hu
      rw [hexp]
      unfold userinfoString
      rw [if_pos hpw]
      simp [List.append_assoc]
  · intro e he
    unfold cleanConnectionString
    rw [he]

/-- Witness for `c1_cleanConnectionString`: its hypotheses hold, and its
conclusion evaluates, at a concrete password-bearing connection string and
at a concrete malformed input. -/
theorem c1_witness :
    cleanConnectionString "postgresql://user:pw@host/db" =
      ("postgresql://user@host/db", none) ∧
    cleanConnectionString "%zz" =
      ("", some "failed to parse connection string: invalid URL escape") := by
  constructor
  · have h := (c1_cleanConnectionString "postgresql://user:pw@host/db").1
      { scheme := "postgresql".toList, opq := [],
        user := some { username := "user".toList, password := "pw".toList,
                       passwordSet := true },
        host := "host".toList, path := "/db".toList, rawPath := [],
        omitHost := false, forceQuery := false, rawQuery := [], fragment := [],
        rawFragment := [] }
      { username := "user".toList, password := "pw".toList, passwordSet := true }
      (by rfl) rfl rfl
    exact h.2.1.trans (by decide)
  · exact (c1_cleanConnectionString "%zz").2 "invalid URL escape" (by rfl)

theorem schemey_not_ctl (c : Char) (h : schemeyChar c = true) :
    ¬(c.toNat < 0x20 ∨ c.toNat = 0x7f) := by
  unfold schemeyChar isAlphaChar isDigitChar at h
  simp only [Bool.or_eq_true, decide_eq_true_eq, char_eq_iff_toNat,
    show ('+').toNat = 43 from rfl, show ('-').toNat = 45 from rfl,
    show ('.').toNat = 46 from rfl] at h
  omega

theorem safe_no_ctl (m : EncMode) (c : Char) (h : shouldEscape c m = false) :
    ¬(c.toNat < 0x20 ∨ c.toNat = 0x7f) := by
  intro hc
  rw [ctl_shouldEscape m c hc] at h
  cases h

theorem parseAuthority_simple (up hostL : List Char) (usr : Option Userinfo)
    (hhost : ∀ c ∈ hostL, shouldEscape c EncMode.host = false ∧ c ≠ ':' ∧ c ≠ '[' ∧ c ≠ ']')
    (husr : (usr = none ∧ up = []) ∨
      (∃ un, usr = some { username := un, password := [], passwordSet := false } ∧
        up = un ++ ['@'] ∧ ∀ c ∈ un, shouldEscape c EncMode.userPassword = false)) :
    parseAuthority (up ++ hostL) = .ok (usr, hostL) := by
  have hnoAt : '@' ∉ hostL :=
    safe_not_mem EncMode.host '@' hostL (fun c hc => (hhost c hc).1) (by decide)
  have hph : parseHost hostL = .ok hostL := by
    unfold parseHost
    have hlb : ¬(leadsWith ['['] hostL = true) := by
      intro hl
      obtain ⟨tl, heq⟩ := (leadsWith_single '[' hostL).mp hl
      exact (hhost '[' (heq ▸ List.mem_cons_self _ _)).2.2.1 rfl
    rw [if_neg hlb,
      splitLast_not_mem ':' hostL (fun hm => (hhost ':' hm).2.1 rfl)]
    exact unescape_no_pct _ hostL (fun c hc he => by
      subst he
      have hp := (hhost '%' hc).1
      rw [show shouldEscape '%' EncMode.host = true from by decide] at hp
      cases hp)
  rcases husr with ⟨rfl, rfl⟩ | ⟨un, rfl, rfl, hsafe⟩
  · unfold parseAuthority
    rw [List.nil_append, splitLast_not_mem '@' hostL hnoAt, hph]
    rfl
  · unfold parseAuthority
    have he : (un ++ ['@']) ++ hostL = un ++ '@' :: hostL := by simp
    rw [he, splitLast_app '@' un hostL hnoAt]
    have hval : un.all isValidUserinfoChar = true := by
      rw [List.all_eq_true]
      intro c hc
      exact not_shouldEscapeUP_valid c (hsafe c hc)
    have hcut : cutChar ':' un = (un, [], false) :=
      cutChar_not_mem ':' un (safe_not_mem _ ':' un hsafe (by decide))
    have hun : unescapeMode EncMode.userPassword un = .ok un :=
      unescape_no_pct _ un (fun c hc he2 => by
        subst he2
        have hp := hsafe '%' hc
        rw [pct_shouldEscape] at hp
        cases hp)
    dsimp only
    rw [hph]
    simp only [Bind.bind, Except.bind, hval, Bool.not_true, Bool.false_eq_true,
      if_false, hcut, hun]

theorem parseMain_simple (scheme up hostL pathL q : List Char) (fb : Bool)
    (usr : Option Userinfo)
    (hschne : scheme ≠ [])
    (hschhead : isAlphaChar (scheme.headD '0') = true)
    (hschchars : ∀ c ∈ scheme, schemeyChar c = true)
    (hschlower : ∀ c ∈ scheme, c.toLower = c)
    (hhost : ∀ c ∈ hostL, shouldEscape c EncMode.host = false ∧ c ≠ ':' ∧ c ≠ '[' ∧ c ≠ ']')
    (hpathshape : pathL = [] ∨ leadsWith ['/'] pathL = true)
    (hpathsafe : ∀ c ∈ pathL, shouldEscape c EncMode.path = false)
    (hqq : '?' ∉ q)
    (hqctl : ∀ c ∈ q, ¬(c.toNat < 0x20 ∨ c.toNat = 0x7f))
    (hfq : fb = true → q = [])
    (husr : (usr = none ∧ up = []) ∨
      (∃ un, usr = some { username := un, password := [], passwordSet := false } ∧
        up = un ++ ['@'] ∧ ∀ c ∈ un, shouldEscape c EncMode.userPassword = false)) :
    parseMain (scheme ++ ':' :: '/' :: '/' ::
        (up ++ hostL ++ pathL ++ (if fb || !q.isEmpty then '?' :: q else []))) =
      .ok { scheme := scheme, opq := [], user := usr, host := hostL, path := pathL,
            rawPath := [], omitHost := false, forceQuery := fb, rawQuery := q,
            fragment := [], rawFragment := [] } := by
  have hup_mem : ∀ c ∈ up, shouldEscape c EncMode.userPassword = false ∨ c = '@' := by
    rcases husr with ⟨_, rfl⟩ | ⟨un, _, rfl, hsafe⟩
    · intro c hc
      cases hc
    · intro c hc
      rcases List.mem_append.mp hc with h1 | h2
      · exact Or.inl (hsafe c h1)
      · exact Or.inr (by simpa using h2)
  have hup_ne : ∀ (d : Char), shouldEscape d EncMode.userPassword = true →
      ¬(d = '@') → d ∉ up := by
    intro d hd hne hm
    rcases hup_mem d hm with h1 | h2
    · rw [hd] at h1
      cases h1
    · exact hne h2
  have hhostf : ∀ c ∈ hostL, shouldEscape c EncMode.host = false :=
    fun c hc => (hhost c hc).1
  have hnoSl_up : '/' ∉ up := hup_ne '/' (by decide) (by decide)
  have hnoQm_up : '?' ∉ up := hup_ne '?' (by decide) (by decide)
  have hnoSl_host : '/' ∉ hostL := safe_not_mem _ '/' hostL hhostf (by decide)
  have hnoQm_host : '?' ∉ hostL := safe_not_mem _ '?' hostL hhostf (by decide)
  have hnoQm_path : '?' ∉ pathL := safe_not_mem _ '?' pathL hpathsafe (by decide)
  have hnoPct_path : '%' ∉ pathL := safe_not_mem _ '%' pathL hpathsafe (by decide)
  have hup_ctl : ∀ c ∈ up, ¬(c.toNat < 0x20 ∨ c.toNat = 0x7f) := by
    intro c hc
    rcases hup_mem c hc with h1 | rfl
    · exact safe_no_ctl _ c h1
    · decide
  have hhost_ctl : ∀ c ∈ hostL, ¬(c.toNat < 0x20 ∨ c.toNat = 0x7f) :=
    fun c hc => safe_no_ctl _ c (hhostf c hc)
  have hpath_ctl : ∀ c ∈ pathL, ¬(c.toNat < 0x20 ∨ c.toNat = 0x7f) :=
    fun c hc => safe_no_ctl _ c (hpathsafe c hc)
  have hsch_ctl : ∀ c ∈ scheme, ¬(c.toNat < 0x20 ∨ c.toNat = 0x7f) :=
    fun c hc => schemey_not_ctl c (hschchars c hc)
  have hnoSl_uh : '/' ∉ up ++ hostL := by
    intro hm
    rcases List.mem_append.mp hm with h | h
    · exact hnoSl_up h
    · exact hnoSl_host h
  have hbody : '?' ∉ ('/' :: '/' :: (up ++ hostL ++ pathL)) := by
    intro hm
    rcases List.mem_cons.mp hm with h | hm
    · exact absurd h (by decide)
    · rcases List.mem_cons.mp hm with h | hm
      · exact absurd h (by decide)
      · rcases List.mem_append.mp hm with hm2 | h
        · rcases List.mem_append.mp hm2 with h | h
          · exact hnoQm_up h
          · exact hnoQm_host h
        · exact hnoQm_path h
  have hauthority : (if (cutChar '/' (up ++ hostL ++ pathL)).2.2 = true
      then (cutChar '/' (up ++ hostL ++ pathL)).1 else up ++ hostL ++ pathL) =
        up ++ hostL ∧
      (if (cutChar '/' (up ++ hostL ++ pathL)).2.2 = true
      then '/' :: (cutChar '/' (up ++ hostL ++ pathL)).2.1 else []) = pathL := by
    rcases hpathshape with rfl | hlw
    · rw [show up ++ hostL ++ ([] : List Char) = up ++ hostL from by simp,
        cutChar_not_mem '/' (up ++ hostL) hnoSl_uh]
      exact ⟨rfl, rfl⟩
    · obtain ⟨pt, rfl⟩ := (leadsWith_single '/' pathL).mp hlw
      rw [show up ++ hostL ++ '/' :: pt = (up ++ hostL) ++ '/' :: pt from by simp,
        cutChar_app '/' (up ++ hostL) pt hnoSl_uh]
      exact ⟨rfl, rfl⟩
  have hpl_nopct : ∀ c ∈ pathL, ¬(c = '%') :=
    fun c hc he => hnoPct_path (he ▸ hc)
  obtain ⟨c0, cs, rfl⟩ : ∃ c0 cs, scheme = c0 :: cs := by
    rcases scheme with _ | ⟨c0, cs⟩
    · exact absurd rfl hschne
    · exact ⟨c0, cs, rfl⟩
  generalize hQ : (if fb || !q.isEmpty then '?' :: q else []) = Q
  have hQmem : ∀ c ∈ Q, c = '?' ∨ c ∈ q := by
    intro c hc
    rw [← hQ] at hc
    split at hc
    · rcases List.mem_cons.mp hc with rfl | h2
      · exact Or.inl rfl
      · exact Or.inr h2
    · cases hc
  have hQctl : ∀ c ∈ Q, ¬(c.toNat < 0x20 ∨ c.toNat = 0x7f) := by
    intro c hc
    rcases hQmem c hc with rfl | h2
    · decide
    · exact hqctl c h2
  have hctl : ¬((((c0 :: cs) ++ ':' :: '/' :: '/' ::
      (up ++ hostL ++ pathL ++ Q)).any
        (fun c => decide (c.toNat < 0x20) || decide (c.toNat = 0x7f))) = true) := by
    rw [List.any_eq_true]
    rintro ⟨x, hx, hpx⟩
    rw [Bool.or_eq_true, decide_eq_true_eq, decide_eq_true_eq] at hpx
    revert hpx
    rcases List.mem_append.mp hx with h | h
    · exact hsch_ctl x h
    · rcases List.mem_cons.mp h with rfl | h
      · decide
      · rcases List.mem_cons.mp h with rfl | h
        · decide
        · rcases List.mem_cons.mp h with rfl | h
          · decide
          · rcases List.mem_append.mp h with h | h
            · rcases List.mem_append.mp h with h | h
              · rcases List.mem_append.mp h with h | h
                · exact hup_ctl x h
                · exact hhost_ctl x h
              · exact hpath_ctl x h
            · exact hQctl x h
  have hstar : ¬((c0 :: cs) ++ ':' :: '/' :: '/' ::
      (up ++ hostL ++ pathL ++ Q) = ['*']) := by
    intro h
    rw [List.cons_append] at h
    injection h with h1 h2
    exact absurd h2 (by simp)
  have hgs : getScheme ((c0 :: cs) ++ ':' :: '/' :: '/' ::
      (up ++ hostL ++ pathL ++ Q)) =
      .ok (c0 :: cs, '/' :: '/' :: (up ++ hostL ++ pathL ++ Q)) :=
    getScheme_app _ _ hschne ⟨c0, cs, rfl, hschhead⟩ hschchars
  by_cases hfb : fb = true
  · subst hfb
    have hq0 : q = [] := hfq rfl
    subst hq0
    simp only [Bool.true_or, if_true] at hQ
    subst hQ
    unfold parseMain
    rw [if_neg hctl, if_neg hstar, hgs]
    dsimp only
    rw [map_eq_self_of_fixed Char.toLower (c0 :: cs) hschlower]
    rw [show '/' :: '/' :: (up ++ hostL ++ pathL ++ ['?'])
        = ('/' :: '/' :: (up ++ hostL ++ pathL)) ++ ['?'] from by
      simp [List.append_assoc]]
    have hcond : ((('/' :: '/' :: (up ++ hostL ++ pathL)) ++ ['?']).getLast? ==
        some '?' &&
        !((('/' :: '/' :: (up ++ hostL ++ pathL)) ++ ['?']).dropLast.contains '?')) =
          true := by
      rw [List.getLast?_concat, List.dropLast_concat,
        contains_false_of_not_mem _ '?' hbody]
      simp
    rw [if_pos hcond]
    dsimp only
    rw [List.dropLast_concat]
    rw [if_neg (by simp [leadsWith]), if_pos (by simp [leadsWith])]
    rw [show List.drop 2 ('/' :: '/' :: (up ++ hostL ++ pathL))
        = up ++ hostL ++ pathL from rfl]
    rw [hauthority.1, hauthority.2,
      parseAuthority_simple up hostL usr hhost husr]
    dsimp only
    unfold setPathInto
    rw [unescape_no_pct EncMode.path pathL hpl_nopct]
    simp only [Bind.bind, Except.bind]
    rw [escape_id EncMode.path pathL hpathsafe]
    simp [emptyURL]
  · have hfb0 : fb = false := by
      revert hfb
      cases fb <;> simp
    subst hfb0
    by_cases hqe : q = []
    · subst hqe
      simp only [Bool.false_or, List.isEmpty_nil, Bool.not_true,
        Bool.false_eq_true, if_false] at hQ
      subst hQ
      rw [List.append_nil]
      unfold parseMain
      rw [List.append_nil] at hctl hstar hgs
      rw [if_neg hctl, if_neg hstar, hgs]
      dsimp only
      rw [map_eq_self_of_fixed Char.toLower (c0 :: cs) hschlower]
      have hcond : (('/' :: '/' :: (up ++ hostL ++ pathL)).getLast? == some '?' &&
          !(('/' :: '/' :: (up ++ hostL ++ pathL)).dropLast.contains '?')) =
            false := by
        rw [getLastBeq_false _ '?' hbody]
        rfl
      have hcondn : ¬((('/' :: '/' :: (up ++ hostL ++ pathL)).getLast? == some '?' &&
          !(('/' :: '/' :: (up ++ hostL ++ pathL)).dropLast.contains '?')) = true) := by
        rw [hcond]
        simp
      rw [if_neg hcondn]
      dsimp only
      rw [cutChar_not_mem '?' _ hbody]
      dsimp only
      rw [if_neg (by simp [leadsWith]), if_pos (by simp [leadsWith])]
      rw [show List.drop 2 ('/' :: '/' :: (up ++ hostL ++ pathL))
          = up ++ hostL ++ pathL from rfl]
      rw [hauthority.1, hauthority.2,
        parseAuthority_simple up hostL usr hhost husr]
      dsimp only
      unfold setPathInto
      rw [unescape_no_pct EncMode.path pathL hpl_nopct]
      simp only [Bind.bind, Except.bind]
      rw [escape_id EncMode.path pathL hpathsafe]
      simp [emptyURL]
    · have hQv : Q = '?' :: q := by
        rw [← hQ, if_pos]
        simp [List.isEmpty_eq_false, hqe]
      subst hQv
      unfold parseMain
      rw [if_neg hctl, if_neg hstar, hgs]
      dsimp only
      rw [map_eq_self_of_fixed Char.toLower (c0 :: cs) hschlower]
      rw [show '/' :: '/' :: (up ++ hostL ++ pathL ++ '?' :: q)
          = ('/' :: '/' :: (up ++ hostL ++ pathL)) ++ '?' :: q from by
        simp [List.append_assoc]]
      obtain ⟨q0, qt, rfl⟩ : ∃ q0 qt, q = q0 :: qt := by
        rcases q with _ | ⟨q0, qt⟩
        · exact absurd rfl hqe
        · exact ⟨q0, qt, rfl⟩
      have hcond : ((('/' :: '/' :: (up ++ hostL ++ pathL)) ++ '?' :: q0 :: qt).getLast? ==
          some '?' &&
          !((('/' :: '/' :: (up ++ hostL ++ pathL)) ++ '?' :: q0 :: qt).dropLast.contains '?')) =
            false := by
        rw [List.getLast?_append_cons, List.getLast?_cons_cons,
          getLastBeq_false _ '?' hqq]
        rfl
      have hcondn : ¬(((('/' :: '/' :: (up ++ hostL ++ pathL)) ++ '?' :: q0 :: qt).getLast? ==
          some '?' &&
          !((('/' :: '/' :: (up ++ hostL ++ pathL)) ++ '?' :: q0 :: qt).dropLast.contains '?')) =
            true) := by
        rw [hcond]
        simp
      rw [if_neg hcondn]
      dsimp only
      rw [cutChar_app '?' _ (q0 :: qt) hbody]
      dsimp only
      rw [if_neg (by simp [leadsWith]), if_pos (by simp [leadsWith])]
      rw [show List.drop 2 ('/' :: '/' :: (up ++ hostL ++ pathL))
          = up ++ hostL ++ pathL from rfl]
      rw [hauthority.1, hauthority.2,
        parseAuthority_simple up hostL usr hhost husr]
      dsimp only
      unfold setPathInto
      rw [unescape_no_pct EncMode.path pathL hpl_nopct]
      simp only [Bind.bind, Except.bind]
      rw [escape_id EncMode.path pathL hpathsafe]
      simp [emptyURL]

theorem urlString_simple_eq (u : GoURL) (hs : SimpleURL u)
    (hpw : ∀ ui, u.user = some ui → ui.password = [] ∧ ui.passwordSet = false) :
    urlString u =
      (u.scheme ++ ':' :: '/' :: '/' ::
        ((match u.user with
          | none => []
          | some ui => ui.username ++ ['@']) ++ u.host ++ u.path ++
          (if u.forceQuery || !u.rawQuery.isEmpty then '?' :: u.rawQuery else []))) ++
      (if !u.fragment.isEmpty then '#' :: u.fragment else []) := by
  obtain ⟨hopq, hschne, hschhead, hschchars, hschlower, hhostne, hhost, huser,
    hpathshape, hpathsafe, hrawp, hqh, hqq, hqctl, hfq, hfrag, hrawf, homit⟩ := hs
  have hep : escapedPath u = u.path := by
    unfold escapedPath
    rw [hrawp]
    have hstar : (u.path == ['*']) = false := by
      rw [beq_eq_false_iff_ne]
      intro he
      have hH := hpathsafe '*' (by rw [he]; exact List.mem_singleton.mpr rfl)
      rw [show shouldEscape '*' EncMode.path = true from by decide] at hH
      cases hH
    simp only [List.isEmpty_nil, Bool.not_true, Bool.false_and, Bool.false_eq_true,
      if_false, hstar]
    exact escape_id EncMode.path u.path hpathsafe
  have hef : escapedFragment u = u.fragment := by
    unfold escapedFragment
    rw [hrawf]
    simp only [List.isEmpty_nil, Bool.not_true, Bool.false_and, Bool.false_eq_true,
      if_false]
    exact escape_id EncMode.fragmentPart u.fragment hfrag
  have heh : escapeMode EncMode.host u.host = u.host :=
    escape_id _ _ (fun c hc => (hhost c hc).1)
  have hsf : (!u.path.isEmpty && !(leadsWith ['/'] u.path) &&
      !u.host.isEmpty) = false := by
    rcases hpathshape with hpe | hlw
    · rw [hpe]
      rfl
    · rw [hlw]
      simp
  unfold urlString
  rw [hopq, hep, hef, heh, homit]
  rcases hu : u.user with _ | ui
  · simp [hsf, List.isEmpty_eq_false, hschne, hhostne, List.append_assoc]
  · obtain ⟨hpw1, hpw2⟩ := hpw ui hu
    have husafe : ∀ c ∈ ui.username, shouldEscape c EncMode.userPassword = false := by
      intro c hc
      apply huser
      unfold userName
      rw [hu]
      exact hc
    have huis : userinfoString ui = ui.username := by
      unfold userinfoString
      rw [hpw2, escape_id _ _ husafe]
      simp
    simp [hsf, huis, List.isEmpty_eq_false, hschne, hhostne, List.append_assoc]

theorem GoURL_eta_build (u : GoURL) (o rp rf f : List Char) (om : Bool)
    (hopq : u.opq = o) (hrawp : u.rawPath = rp) (homit : u.omitHost = om)
    (hrawf : u.rawFragment = rf) (hf : u.fragment = f) :
    ({ scheme := u.scheme, opq := o, user := u.user, host := u.host,
       path := u.path, rawPath := rp, omitHost := om,
       forceQuery := u.forceQuery, rawQuery := u.rawQuery,
       fragment := f, rawFragment := rf } : GoURL) = u := by
  subst hopq
  subst hrawp
  subst homit
  subst hrawf
  subst hf
  rfl

theorem parseURL_simple (u : GoURL) (hs : SimpleURL u)
    (hpw : ∀ ui, u.user = some ui → ui.password = [] ∧ ui.passwordSet = false) :
    parseURL (urlString u) = .ok u := by
  have hser := urlString_simple_eq u hs hpw
  obtain ⟨hopq, hschne, hschhead, hschchars, hschlower, hhostne, hhost, huser,
    hpathshape, hpathsafe, hrawp, hqh, hqq, hqctl, hfq, hfrag, hrawf, homit⟩ := hs
  rw [hser]
  have hqpart : ∀ x, x ∈ (if u.forceQuery || !u.rawQuery.isEmpty
      then '?' :: u.rawQuery else []) → x = '?' ∨ x ∈ u.rawQuery := by
    intro x hx
    split at hx
    · rcases List.mem_cons.mp hx with rfl | h2
      · exact Or.inl rfl
      · exact Or.inr h2
    · cases hx
  rcases hu : u.user with _ | ui
  · dsimp only
    have hpm := parseMain_simple u.scheme [] u.host u.path u.rawQuery u.forceQuery
      u.user hschne hschhead hschchars hschlower hhost hpathshape hpathsafe hqq
      hqctl hfq (Or.inl ⟨hu, rfl⟩)
    have hnoHash : '#' ∉ (u.scheme ++ ':' :: '/' :: '/' ::
        (([] : List Char) ++ u.host ++ u.path ++
          (if u.forceQuery || !u.rawQuery.isEmpty then '?' :: u.rawQuery else []))) := by
      intro hm
      rcases List.mem_append.mp hm with h | h
      · have hsy := hschchars '#' h
        rw [show schemeyChar '#' = false from by decide] at hsy
        cases hsy
      · rcases List.mem_cons.mp h with h | h
        · exact absurd h (by decide)
        · rcases List.mem_cons.mp h with h | h
          · exact absurd h (by decide)
          · rcases List.mem_cons.mp h with h | h
            · exact absurd h (by decide)
            · rcases List.mem_append.mp h with h | h
              · rcases List.mem_append.mp h with h | h
                · rcases List.mem_append.mp h with h | h
                  · cases h
                  · have hx := (hhost '#' h).1
                    rw [show shouldEscape '#' EncMode.host = true from by decide] at hx
                    cases hx
                · have hx := hpathsafe '#' h
                  rw [show shouldEscape '#' EncMode.path = true from by decide] at hx
                  cases hx
              · rcases hqpart '#' h with h2 | h2
                · exact absurd h2 (by decide)
                · exact hqh h2
    by_cases hfe : u.fragment = []
    · rw [hfe]
      rw [show (if (!([] : List Char).isEmpty) = true
          then '#' :: ([] : List Char) else []) = [] from rfl, List.append_nil]
      unfold parseURL
      rw [cutChar_not_mem '#' _ hnoHash]
      dsimp only
      rw [hpm]
      rw [GoURL_eta_build u [] [] [] [] false hopq hrawp homit hrawf hfe]
      rfl
    · have hfcond : (!u.fragment.isEmpty) = true := by
        simp [List.isEmpty_eq_false, hfe]
      rw [if_pos hfcond]
      unfold parseURL
      rw [cutChar_app '#' _ u.fragment hnoHash]
      dsimp only
      rw [hpm]
      dsimp only
      rw [if_neg (fun h => hfe (List.isEmpty_iff.mp h))]
      unfold setFragmentInto
      have hfr_nopct : ∀ c ∈ u.fragment, ¬(c = '%') := by
        intro c hc he
        subst he
        have hx := hfrag '%' hc
        rw [pct_shouldEscape] at hx
        cases hx
      rw [unescape_no_pct EncMode.fragmentPart u.fragment hfr_nopct]
      simp only [Bind.bind, Except.bind]
      rw [escape_id EncMode.fragmentPart u.fragment hfrag]
      simp only [beq_self_eq_true, if_true]
      rw [GoURL_eta_build u [] [] [] u.fragment false hopq hrawp homit hrawf rfl]
  · obtain ⟨hpw1, hpw2⟩ := hpw ui hu
    have husafe : ∀ c ∈ ui.username, shouldEscape c EncMode.userPassword = false := by
      intro c hc
      apply huser
      unfold userName
      rw [hu]
      exact hc
    have hui_eq : ui =
        { username := ui.username, password := [], passwordSet := false } := by
      rw [← hpw1, ← hpw2]
    have hpm := parseMain_simple u.scheme (ui.username ++ ['@']) u.host u.path
      u.rawQuery u.forceQuery u.user hschne hschhead hschchars hschlower hhost
      hpathshape hpathsafe hqq hqctl hfq
      (Or.inr ⟨ui.username, by rw [hu]; exact congrArg some hui_eq, rfl, husafe⟩)
    have hnoHash : '#' ∉ (u.scheme ++ ':' :: '/' :: '/' ::
        ((ui.username ++ ['@']) ++ u.host ++ u.path ++
          (if u.forceQuery || !u.rawQuery.isEmpty then '?' :: u.rawQuery else []))) := by
      intro hm
      rcases List.mem_append.mp hm with h | h
      · have hsy := hschchars '#' h
        rw [show schemeyChar '#' = false from by decide] at hsy
        cases hsy
      · rcases List.mem_cons.mp h with h | h
        · exact absurd h (by decide)
        · rcases List.mem_cons.mp h with h | h
          · exact absurd h (by decide)
          · rcases List.mem_cons.mp h with h | h
            · exact absurd h (by decide)
            · rcases List.mem_append.mp h with h | h
              · rcases List.mem_append.mp h with h | h
                · rcases List.mem_append.mp h with h | h
                  · rcases List.mem_append.mp h with h | h
                    · have hx := husafe '#' h
                      rw [show shouldEscape '#' EncMode.userPassword = true
                        from by decide] at hx
                      cases hx
                    · have h3 : '#' = '@' := by
                        simp only [List.mem_singleton] at h
                        exact h
                      exact absurd h3 (by decide)
                  · have hx := (hhost '#' h).1
                    rw [show shouldEscape '#' EncMode.host = true from by decide] at hx
                    cases hx
                · have hx := hpathsafe '#' h
                  rw [show shouldEscape '#' EncMode.path = true from by decide] at hx
                  cases hx
              · rcases hqpart '#' h with h2 | h2
                · exact absurd h2 (by decide)
                · exact hqh h2
    dsimp only
    by_cases hfe : u.fragment = []
    · rw [hfe]
      rw [show (if (!([] : List Char).isEmpty) = true
          then '#' :: ([] : List Char) else []) = [] from rfl, List.append_nil]
      unfold parseURL
      rw [cutChar_not_mem '#' _ hnoHash]
      dsimp only
      rw [hpm]
      rw [GoURL_eta_build u [] [] [] [] false hopq hrawp homit hrawf hfe]
      rfl
    · have hfcond : (!u.fragment.isEmpty) = true := by
        simp [List.isEmpty_eq_false, hfe]
      rw [if_pos hfcond]
      unfold parseURL
      rw [cutChar_app '#' _ u.fragment hnoHash]
      dsimp only
      rw [hpm]
      dsimp only
      rw [if_neg (fun h => hfe (List.isEmpty_iff.mp h))]
      unfold setFragmentInto
      have hfr_nopct : ∀ c ∈ u.fragment, ¬(c = '%') := by
        intro c hc he
        subst he
        have hx := hfrag '%' hc
        rw [pct_shouldEscape] at hx
        cases hx
      rw [unescape_no_pct EncMode.fragmentPart u.fragment hfr_nopct]
      simp only [Bind.bind, Except.bind]
      rw [escape_id EncMode.fragmentPart u.fragment hfrag]
      simp only [beq_self_eq_true, if_true]
      rw [GoURL_eta_build u [] [] [] u.fragment false hopq hrawp homit hrawf rfl]

theorem stripPassword_fields (u : GoURL) :
    (stripPassword u).scheme = u.scheme ∧ (stripPassword u).opq = u.opq ∧
    (stripPassword u).host = u.host ∧ (stripPassword u).path = u.path ∧
    (stripPassword u).rawPath = u.rawPath ∧
    (stripPassword u).omitHost = u.omitHost ∧
    (stripPassword u).forceQuery = u.forceQuery ∧
    (stripPassword u).rawQuery = u.rawQuery ∧
    (stripPassword u).fragment = u.fragment ∧
    (stripPassword u).rawFragment = u.rawFragment ∧
    userName (stripPassword u) = userName u := by
  rcases hu : u.user with _ | ui <;> simp [stripPassword, userName, hu]

theorem stripPassword_pw (u : GoURL) :
    ∀ ui, (stripPassword u).user = some ui →
      ui.password = [] ∧ ui.passwordSet = false := by
  intro ui h
  unfold stripPassword at h
  rcases hu : u.user with _ | ui0
  · rw [hu] at h
    dsimp only at h
    rw [hu] at h
    cases h
  · rw [hu] at h
    dsimp only at h
    injection h with h2
    rw [← h2]
    exact ⟨rfl, rfl⟩

theorem SimpleURL_strip (u : GoURL) (hs : SimpleURL u) :
    SimpleURL (stripPassword u) := by
  obtain ⟨h1, h2, h3, h4, h5, h6, h7, h8, h9, h10, h11⟩ := stripPassword_fields u
  unfold SimpleURL
  rw [h1, h2, h3, h4, h5, h6, h7, h8, h9, h10, h11]
  exact hs

theorem stripPassword_idem (u : GoURL) :
    stripPassword (stripPassword u) = stripPassword u := by
  rcases hu : u.user with _ | ui <;> simp [stripPassword, hu]

/-- C10: counterexample — `cleanConnectionString` is not idempotent on its
own output.  On `postgresql://user:pw@host name/db` it succeeds (net/url
accepts a space in the host on parsing) and returns
`postgresql://user@host%20name/db`, because `URL.String` percent-escapes
the space; but applying it again fails, because `parseHost` rejects the
escape `%20` inside a host. -/
theorem c10_counterexample :
    cleanConnectionString "postgresql://user:pw@host name/db" =
      ("postgresql://user@host%20name/db", none) ∧
    cleanConnectionString "postgresql://user@host%20name/db" =
      ("", some "failed to parse connection string: invalid URL escape in host") := by
  constructor
  · rfl
  · rfl

/-- C10 (amended): `cleanConnectionString` is idempotent on its own output
for plain authority-form connection strings — inputs that parse to a URL
with a nonempty lowercase scheme and host whose stored components consist
only of characters their serialization contexts keep verbatim
(`SimpleURL`).  On such an input the first application succeeds, and
applying the function again to the returned redacted string succeeds and
returns that string unchanged. -/
theorem c10_idempotent_amended (l : String) (u : GoURL)
    (hp : parseURL l.toList = .ok u) (hs : SimpleURL u) :
    (cleanConnectionString l).2 = none ∧
    cleanConnectionString ((cleanConnectionString l).1) = cleanConnectionString l := by
  have h1 : cleanConnectionString l = (String.mk (urlString (stripPassword u)), none) := by
    unfold cleanConnectionString
    rw [hp]
  have h2 : parseURL (urlString (stripPassword u)) = .ok (stripPassword u) :=
    parseURL_simple (stripPassword u) (SimpleURL_strip u hs) (stripPassword_pw u)
  rw [h1]
  refine ⟨rfl, ?_⟩
  show cleanConnectionString (String.mk (urlString (stripPassword u))) =
    (String.mk (urlString (stripPassword u)), none)
  unfold cleanConnectionString
  rw [show (String.mk (urlString (stripPassword u))).toList =
    urlString (stripPassword u) from rfl]
  rw [h2]
  dsimp only
  rw [stripPassword_idem]

set_option maxRecDepth 100000 in
/-- Witness for `c10_idempotent_amended`: its hypotheses hold, and its
conclusion evaluates, at a concrete password-bearing connection string. -/
theorem c10_witness :
    (cleanConnectionString "postgresql://user:pw@host/db").2 = none ∧
    cleanConnectionString ((cleanConnectionString "postgresql://user:pw@host/db").1) =
      cleanConnectionString "postgresql://user:pw@host/db" :=
  c10_idempotent_amended "postgresql://user:pw@host/db"
    { scheme := "postgresql".toList, opq := [],
      user := some { username := "user".toList, password := "pw".toList,
                     passwordSet := true },
      host := "host".toList, path := "/db".toList, rawPath := [],
      omitHost := false, forceQuery := false, rawQuery := [], fragment := [],
      rawFragment := [] }
    (by rfl) (by unfold SimpleURL; decide)

end WorkloadExporter
